import Mathlib

/-!
# ECO-TECH layout shell (`src/Layout.js`)

A shallow embedding of the `Layout` component: the derived point balance, the
notification badge, navigation highlighting, the two mark-read mutations, the
three queries and the mobile sidebar.

Point amounts are JavaScript numbers, that is IEEE-754 binary64 values; `+` and
`-` on them are the exact operations followed by rounding to nearest, ties to
even.
-/

namespace EcoTech

/-! ## JavaScript numbers -/

/-- A JavaScript number: an IEEE-754 binary64 value. A finite value is given by
its sign, biased exponent field and fraction field; its magnitude is
`mantissaOf * 2 ^ exponentOf`. -/
inductive JSNumber where
  | nan
  | infinity (negative : Bool)
  | finite (negative : Bool) (biasedExponent : Fin 2047) (fraction : Fin 4503599627370496)
deriving DecidableEq, Repr

/-- The number `0` (positive zero). -/
def JSNumber.zero : JSNumber := .finite false ⟨0, by decide⟩ ⟨0, by decide⟩

/-- The number `-0`. -/
def JSNumber.negZero : JSNumber := .finite true ⟨0, by decide⟩ ⟨0, by decide⟩

/-- The integer significand of a finite binary64 value: the fraction for a
subnormal, the fraction with the hidden bit otherwise. -/
def mantissaOf (be : Fin 2047) (fr : Fin 4503599627370496) : Nat :=
  if be.val = 0 then fr.val else 4503599627370496 + fr.val

/-- The exponent of the unit in the last place of a finite binary64 value. -/
def exponentOf (be : Fin 2047) : Int :=
  if be.val = 0 then -1074 else (be.val : Int) - 1075

/-- A magnitude with its sign. -/
def signed (negative : Bool) (m : Nat) : Int :=
  if negative then -(m : Int) else (m : Int)

/-- Number of binary digits, with `fuel` bounding the recursion. -/
def bitLengthAux : Nat → Nat → Nat
  | 0, _ => 0
  | fuel + 1, n => if n = 0 then 0 else bitLengthAux fuel (n / 2) + 1

/-- Number of binary digits of a natural number. -/
def bitLength (n : Nat) : Nat := bitLengthAux n n

/-- The quotient `n / 2 ^ k` rounded to nearest, ties to even. -/
def shiftRightRound (n k : Nat) : Nat :=
  if 2 ^ k < 2 * (n % 2 ^ k) ∨ (2 * (n % 2 ^ k) = 2 ^ k ∧ (n / 2 ^ k) % 2 = 1) then
    n / 2 ^ k + 1
  else n / 2 ^ k

/-- The exponent at which the exact magnitude `M * 2 ^ E` is rounded: 53
significant bits, and not below the subnormal exponent. -/
def roundExponent (M : Nat) (E : Int) : Int :=
  max ((bitLength M : Int) + E - 53) (-1074)

/-- The significand of `M * 2 ^ E` at the exponent `roundExponent M E`. -/
def roundMantissa (M : Nat) (E : Int) : Nat :=
  if E ≤ roundExponent M E then shiftRightRound M (roundExponent M E - E).toNat
  else M * 2 ^ (E - roundExponent M E).toNat

/-- The binary64 value with significand `m` at exponent `t`; an exponent above
the largest one overflows to infinity. -/
def encode (negative : Bool) (m : Nat) (t : Int) : JSNumber :=
  if 971 < t then .infinity negative
  else if m < 4503599627370496 then
    .finite negative ⟨0, by decide⟩ ⟨m % 4503599627370496, Nat.mod_lt _ (by decide)⟩
  else
    .finite negative ⟨(t + 1075).toNat % 2047, Nat.mod_lt _ (by decide)⟩
      ⟨(m - 4503599627370496) % 4503599627370496, Nat.mod_lt _ (by decide)⟩

/-- The binary64 value nearest to the exact non-zero magnitude `M * 2 ^ E`
(round to nearest, ties to even). -/
def roundFinite (negative : Bool) (M : Nat) (E : Int) : JSNumber :=
  if roundMantissa M E = 9007199254740992 then
    encode negative 4503599627370496 (roundExponent M E + 1)
  else encode negative (roundMantissa M E) (roundExponent M E)

/-- The number denoted by an integer literal. -/
def JSNumber.ofInt (n : Int) : JSNumber :=
  if n = 0 then JSNumber.zero else roundFinite (decide (n < 0)) n.natAbs 0

/-- The common exponent at which two finite values are added exactly. -/
def commonExponent (be1 be2 : Fin 2047) : Int :=
  min (exponentOf be1) (exponentOf be2)

/-- The exact sum of two finite values, in units of `2 ^ commonExponent`. -/
def exactSum (s1 : Bool) (be1 : Fin 2047) (fr1 : Fin 4503599627370496)
    (s2 : Bool) (be2 : Fin 2047) (fr2 : Fin 4503599627370496) : Int :=
  signed s1 (mantissaOf be1 fr1 * 2 ^ (exponentOf be1 - commonExponent be1 be2).toNat) +
  signed s2 (mantissaOf be2 fr2 * 2 ^ (exponentOf be2 - commonExponent be1 be2).toNat)

/-- The operator `+` on two numbers (`Number::add`): `NaN` is absorbing, opposite
infinities give `NaN`, and two finite values give their exact sum rounded to
nearest, ties to even; an exact sum of zero is `+0` unless both operands are
negative (that is, both are `-0`). -/
def JSNumber.add : JSNumber → JSNumber → JSNumber
  | .nan, _ => .nan
  | .infinity _, .nan => .nan
  | .infinity a, .infinity b => if a = b then .infinity a else .nan
  | .infinity a, .finite _ _ _ => .infinity a
  | .finite _ _ _, .nan => .nan
  | .finite _ _ _, .infinity b => .infinity b
  | .finite s1 be1 fr1, .finite s2 be2 fr2 =>
    if exactSum s1 be1 fr1 s2 be2 fr2 = 0 then
      .finite (s1 && s2) ⟨0, by decide⟩ ⟨0, by decide⟩
    else
      roundFinite (decide (exactSum s1 be1 fr1 s2 be2 fr2 < 0))
        (exactSum s1 be1 fr1 s2 be2 fr2).natAbs (commonExponent be1 be2)

/-- Unary minus. -/
def JSNumber.neg : JSNumber → JSNumber
  | .nan => .nan
  | .infinity s => .infinity (!s)
  | .finite s be fr => .finite (!s) be fr

/-- The operator `-` on two numbers. -/
def JSNumber.sub (x y : JSNumber) : JSNumber := x.add y.neg

/-- Truthiness of a number: `0`, `-0` and `NaN` are falsy. -/
def JSNumber.truthy : JSNumber → Bool
  | .nan => false
  | .infinity _ => true
  | .finite _ be fr => mantissaOf be fr != 0

/-- The integer part of a number (`0` for `NaN` and the infinities). -/
def JSNumber.toInt : JSNumber → Int
  | .nan => 0
  | .infinity _ => 0
  | .finite s be fr =>
    if 0 ≤ exponentOf be then signed s (mantissaOf be fr * 2 ^ (exponentOf be).toNat)
    else signed s (mantissaOf be fr / 2 ^ (-exponentOf be).toNat)

/-! ## Data model -/

/-- Values the `points` field of a transaction record can hold: the field may be
missing (`undefined`), `null`, or a number. -/
inductive JSValue where
  | undefined
  | null
  | number (x : JSNumber)
deriving DecidableEq, Repr

/-- JavaScript truthiness: `undefined`, `null`, `0`, `-0` and `NaN` are falsy. -/
def JSValue.truthy : JSValue → Bool
  | .number x => x.truthy
  | .undefined => false
  | .null => false

/-- The expression `v || 0` used as a summand: `v` when it is truthy, `0` otherwise. -/
def JSValue.orZero (v : JSValue) : JSNumber :=
  match v with
  | .number x => if v.truthy then x else JSNumber.zero
  | .undefined => JSNumber.zero
  | .null => JSNumber.zero

/-- A transaction record; `type` is `none` when the field is absent. -/
structure Transaction where
  user_id : String
  type : Option String
  points : JSValue
deriving DecidableEq, Repr

/-- A notification record. -/
structure Notification where
  id : String
  user_id : String
  title : String
  message : String
  is_read : Bool
deriving DecidableEq, Repr

/-- The identity record returned by `base44.auth.me()`. -/
structure User where
  full_name : String
  email : String
deriving DecidableEq, Repr

/-! ## Derived point balance (lines 88-93) -/

/-- The constant `totalPoints` of `Layout`: filter by type, reduce with
`sum + (t.points || 0)` from `0`, subtract the two results. -/
def totalPoints (transactions : List Transaction) : JSNumber :=
  ((transactions.filter (fun t => t.type == some "earned")).foldl
      (fun sum t => sum.add t.points.orZero) JSNumber.zero).sub
  ((transactions.filter (fun t => t.type == some "redeemed")).foldl
      (fun sum t => sum.add t.points.orZero) JSNumber.zero)

/-- The point amount of a transaction as the specification reads it: the integer
held by `points`, with an absent amount counting as nothing. -/
def Transaction.amount (t : Transaction) : Int :=
  match t.points with
  | .number x => x.toInt
  | .undefined => 0
  | .null => 0

/-- The balance in the specification's words: the sum of the amounts of the
earned transactions minus the sum of the amounts of the redeemed ones, as an
exact integer. -/
def specBalance (T : List Transaction) : Int :=
  ((T.filter (fun t => t.type = some "earned")).map Transaction.amount).sum -
  ((T.filter (fun t => t.type = some "redeemed")).map Transaction.amount).sum

/-- An earned transaction with an integer amount. -/
def earned (n : Int) : Transaction :=
  { user_id := "u", type := some "earned", points := .number (JSNumber.ofInt n) }

/-- A redeemed transaction with an integer amount. -/
def redeemed (n : Int) : Transaction :=
  { user_id := "u", type := some "redeemed", points := .number (JSNumber.ofInt n) }

/-! ## Notification badge (lines 248-252) -/

/-- The badge on the bell: rendered only when `notifications.length > 0`, and
then its content is `notifications.length`. `none` means no badge element. -/
def notificationBadge (notifications : List Notification) : Option Nat :=
  if notifications.length > 0 then some notifications.length else none

/-- The text React writes for a number child. -/
def badgeText (notifications : List Notification) : Option String :=
  (notificationBadge notifications).map toString

/-! ## Navigation (lines 35-42, 133-149, 181-198) -/

/-- An entry of `navigationItems` (the icon is presentation only). -/
structure NavItem where
  title : String
  url : String
deriving DecidableEq, Repr

/-- The module constant `navigationItems`; `createPageUrl` is imported from
`@/utils` and is taken as a parameter. -/
def navigationItems (createPageUrl : String → String) : List NavItem :=
  [ { title := "Home", url := createPageUrl "Home" },
    { title := "Report Waste", url := createPageUrl "ReportWaste" },
    { title := "Collect Waste", url := createPageUrl "CollectWaste" },
    { title := "Rewards", url := createPageUrl "Rewards" },
    { title := "Community", url := createPageUrl "Community" },
    { title := "Settings", url := createPageUrl "Settings" } ]

/-- The six page names passed to `createPageUrl`. -/
def pageNames : List String :=
  ["Home", "ReportWaste", "CollectWaste", "Rewards", "Community", "Settings"]

/-- The local constant `isActive`: `location.pathname === item.url`. -/
def isActive (pathname : String) (item : NavItem) : Bool :=
  pathname == item.url

/-- Class names of the highlighted link. -/
def activeClass : String := "bg-[#22C55E] text-white shadow-md"

/-- Class names of a link that is not highlighted. -/
def inactiveClass : String := "text-[#475569] hover:bg-gray-100"

/-- A rendered `Link`; `linkTo` is its `to` prop. -/
structure NavLink where
  key : String
  linkTo : String
  className : String
  label : String
deriving DecidableEq, Repr

/-- The body of the `navigationItems.map` callback. -/
def renderNavLink (pathname : String) (item : NavItem) : NavLink :=
  { key := item.title
    linkTo := item.url
    className := "flex items-center gap-3 px-4 py-3 rounded-lg transition-all " ++
      (if isActive pathname item then activeClass else inactiveClass)
    label := item.title }

/-- The `nav` element: one link per entry of `navigationItems`. -/
def renderNav (createPageUrl : String → String) (pathname : String) : List NavLink :=
  (navigationItems createPageUrl).map (renderNavLink pathname)

/-- A link is shown highlighted when its class list ends with the active classes. -/
def NavLink.highlighted (l : NavLink) : Bool :=
  l.className == "flex items-center gap-3 px-4 py-3 rounded-lg transition-all " ++ activeClass

/-! ## Promises and the mutation lifecycle -/

/-- How a promise settles. -/
inductive Outcome where
  | fulfilled
  | rejected (reason : String)
deriving DecidableEq, Repr

/-- A settled promise: the logical moment at which it settles, counted from the
call of `mutate`, and how it settles. -/
structure Settled where
  settledAt : Nat
  outcome : Outcome
deriving DecidableEq, Repr

/-- The payload object of `Notification.update`: the fields it overwrites. -/
structure NotificationPatch where
  user_id : Option String := none
  title : Option String := none
  message : Option String := none
  is_read : Option Bool := none
deriving DecidableEq, Repr

/-- One call `base44.entities.Notification.update(id, payload)`. -/
structure UpdateCall where
  id : String
  payload : NotificationPatch
deriving DecidableEq, Repr

/-- One step of the search for the earliest rejection: `best` is the earliest
rejection seen so far. -/
def earlier (best : Option Settled) (p : Settled) : Option Settled :=
  match p.outcome with
  | .fulfilled => best
  | .rejected _ =>
    match best with
    | none => some p
    | some q => if p.settledAt < q.settledAt then some p else some q

/-- The earliest rejection among settled promises (the first in the list among
equally early ones), if any promise rejects. -/
def firstRejection (ps : List Settled) : Option Settled :=
  ps.foldl earlier none

/-- Modelled from the spec: the built-in `Promise.all`, the concurrent-wait
primitive whose first rejection short-circuits: it rejects as soon as one input
rejects, with that reason; otherwise it fulfils once every input has fulfilled. -/
def promiseAll (ps : List Settled) : Settled :=
  match firstRejection ps with
  | some r => r
  | none => { settledAt := ps.foldl (fun t p => max t p.settledAt) 0, outcome := .fulfilled }

/-- The calls of a list are issued in order against the remote service, whose
state has type `β`; `update` is the service's reaction to one call. -/
def issueAll {β : Type} (update : β → UpdateCall → Settled × β) (b : β) :
    List UpdateCall → List Settled × β
  | [] => ([], b)
  | c :: cs =>
    let r := update b c
    let rest := issueAll update r.2 cs
    (r.1 :: rest.1, rest.2)

/-- What one run of a mutation did: the calls issued, how each settled, how the
promise of `mutationFn` settled, the moment `onSuccess` invalidated the
`notifications` query (`none`: it never ran), and the service state afterwards. -/
structure MutationRun (β : Type) where
  calls : List UpdateCall
  responses : List Settled
  result : Settled
  invalidatedAt : Option Nat
  backend : β

/-- Modelled from the spec: the mutation lifecycle of the query library's
`useMutation`: `onSuccess` runs when, and only when, the promise of `mutationFn`
fulfils; both mutations pass the same `onSuccess`,
`queryClient.invalidateQueries` on the `notifications` key (lines 70-72, 83-85). -/
def onSuccessAt (result : Settled) : Option Nat :=
  match result.outcome with
  | .fulfilled => some result.settledAt
  | .rejected _ => none

/-- The update call made by `mutationFn` of `markAsReadMutation` (lines 68-69). -/
def markAsReadCall (notificationId : String) : UpdateCall :=
  { id := notificationId, payload := { is_read := some true } }

/-- The hook `markAsReadMutation` run on a notification id (lines 67-73). -/
def markAsReadMutation {β : Type} (update : β → UpdateCall → Settled × β) (b : β)
    (notificationId : String) : MutationRun β :=
  let r := update b (markAsReadCall notificationId)
  { calls := [markAsReadCall notificationId]
    responses := [r.1]
    result := r.1
    invalidatedAt := onSuccessAt r.1
    backend := r.2 }

/-- The update calls made by `mutationFn` of `markAllAsReadMutation`: the
`notifications.map` of lines 78-80. -/
def markAllAsReadCalls (notifications : List Notification) : List UpdateCall :=
  notifications.map (fun notif => { id := notif.id, payload := { is_read := some true } })

/-- The hook `markAllAsReadMutation` run on the loaded list (lines 75-86):
all calls are issued, `Promise.all` is awaited, `onSuccess` invalidates. -/
def markAllAsReadMutation {β : Type} (update : β → UpdateCall → Settled × β) (b : β)
    (notifications : List Notification) : MutationRun β :=
  let issued := issueAll update b (markAllAsReadCalls notifications)
  let result := promiseAll issued.1
  { calls := markAllAsReadCalls notifications
    responses := issued.1
    result := result
    invalidatedAt := onSuccessAt result
    backend := issued.2 }

/-- The handler `handleNotificationClick` (lines 99-101). -/
def handleNotificationClick {β : Type} (update : β → UpdateCall → Settled × β) (b : β)
    (notif : Notification) : MutationRun β :=
  markAsReadMutation update b notif.id

/-! ## The hosted backend -/

/-- Filter object of `Transaction.filter`; an absent field puts no constraint. -/
structure TransactionCriteria where
  user_id : Option String
deriving DecidableEq, Repr

/-- Filter object of `Notification.filter`; an absent field puts no constraint. -/
structure NotificationCriteria where
  user_id : Option String
  is_read : Option Bool
deriving DecidableEq, Repr

/-- Modelled from the spec: the state of the hosted backend behind `base44`
(section 6), which is not part of the source: the session identity and the
Transaction and Notification entity sets. -/
structure Backend where
  session : Option User
  transactions : List Transaction
  notifications : List Notification
deriving DecidableEq, Repr

/-- Modelled from the spec: the backend operation "list transactions", with
a filter on the identity reference. -/
def Backend.filterTransactions (b : Backend) (q : TransactionCriteria) : List Transaction :=
  b.transactions.filter (fun t =>
    match q.user_id with
    | some u => t.user_id == u
    | none => true)

/-- Modelled from the spec: the backend operation "list unread notifications",
a filter on the identity reference and on the read flag. -/
def Backend.filterNotifications (b : Backend) (q : NotificationCriteria) : List Notification :=
  b.notifications.filter (fun n =>
    (match q.user_id with
      | some u => n.user_id == u
      | none => true) &&
    (match q.is_read with
      | some r => n.is_read == r
      | none => true))

/-- Modelled from the spec: a record after an update overwrote the fields the
payload names. -/
def Notification.patch (n : Notification) (p : NotificationPatch) : Notification :=
  { id := n.id
    user_id := p.user_id.getD n.user_id
    title := p.title.getD n.title
    message := p.message.getD n.message
    is_read := p.is_read.getD n.is_read }

/-- Modelled from the spec: the backend operation "update notification": the
updated record, or a failure without effect when the id does not exist. -/
def Backend.updateNotification (b : Backend) (c : UpdateCall) : Outcome × Backend :=
  if b.notifications.any (fun n => n.id == c.id) then
    (.fulfilled,
      { b with notifications :=
          b.notifications.map (fun n => if n.id == c.id then n.patch c.payload else n) })
  else
    (.rejected "not found", b)

/-- The network between the component and the backend, as far as an update call
is concerned: how long the answer takes and whether the call gets through. -/
structure Network where
  latency : UpdateCall → Nat
  delivers : UpdateCall → Bool

/-- Modelled from the spec: the remote update as the component sees it, "updated
record or failure": a call that gets through is answered by the backend, a call
that does not is rejected and has no effect. -/
def Backend.respond (net : Network) (b : Backend) (c : UpdateCall) : Settled × Backend :=
  if net.delivers c then
    ({ settledAt := net.latency c, outcome := (b.updateNotification c).1 },
      (b.updateNotification c).2)
  else
    ({ settledAt := net.latency c, outcome := .rejected "network error" }, b)

/-- Modelled from the spec: the backend operation "logout", a side effect on
the session only. -/
def Backend.logout (b : Backend) : Backend :=
  { b with session := none }

/-- The query function of the `notifications` query (line 63). -/
def notificationsQueryFn (b : Backend) (user : Option User) : List Notification :=
  b.filterNotifications { user_id := user.map User.email, is_read := some false }

/-- The query function of the `userTransactions` query (line 57). -/
def transactionsQueryFn (b : Backend) (user : Option User) : List Transaction :=
  b.filterTransactions { user_id := user.map User.email }

/-! ## Queries (lines 49-65) -/

/-- What `useQuery` holds after the initial load: `data` (`none` is
`undefined`) and how many times the query function was invoked. -/
structure QueryResult (α : Type) where
  data : Option α
  fetchCount : Nat
deriving DecidableEq, Repr

/-- Modelled from the spec: one fetch of a query by the query library, with its
retries: `queryFn k` is the outcome of invocation number `k` (`none`: it
failed); after a failure the function is invoked again while retries are left. -/
def runQuery {α : Type} (queryFn : Nat → Option α) (attempt : Nat) : Nat → QueryResult α
  | 0 =>
    match queryFn attempt with
    | some d => { data := some d, fetchCount := attempt + 1 }
    | none => { data := none, fetchCount := attempt + 1 }
  | retriesLeft + 1 =>
    match queryFn attempt with
    | some d => { data := some d, fetchCount := attempt + 1 }
    | none => runQuery queryFn (attempt + 1) retriesLeft

/-- Modelled from the spec: the query library's hook `useQuery` with its options
`enabled` and `retry` (a number of retries; `retry: false` is `0`): a disabled
query never invokes its function. -/
def useQuery {α : Type} (enabled : Bool) (retry : Nat) (queryFn : Nat → Option α) :
    QueryResult α :=
  if enabled then runQuery queryFn 0 retry else { data := none, fetchCount := 0 }

/-- The remote reads as seen by the component: the outcome of each invocation
(`none`: the request failed). -/
structure Services where
  me : Nat → Option User
  transactionFilter : TransactionCriteria → Nat → Option (List Transaction)
  notificationFilter : NotificationCriteria → Nat → Option (List Notification)

/-- The three queries of `Layout` after the initial load, with the `enabled`
option of the two dependent ones. -/
structure LayoutQueries where
  user : QueryResult User
  transactionsEnabled : Bool
  transactionsQuery : QueryResult (List Transaction)
  notificationsEnabled : Bool
  notificationsQuery : QueryResult (List Notification)

/-- The three `useQuery` calls of lines 49-65; `defaultRetry` is the retry count
the query library applies when the option is not given. -/
def layoutQueries (defaultRetry : Nat) (svc : Services) : LayoutQueries :=
  let user := useQuery true 0 svc.me
  let enabled := user.data.isSome
  { user := user
    transactionsEnabled := enabled
    transactionsQuery := useQuery enabled defaultRetry
      (svc.transactionFilter { user_id := user.data.map User.email })
    notificationsEnabled := enabled
    notificationsQuery := useQuery enabled defaultRetry
      (svc.notificationFilter { user_id := user.data.map User.email, is_read := some false }) }

/-- The destructuring `data: transactions = []` of line 55. -/
def LayoutQueries.transactions (q : LayoutQueries) : List Transaction :=
  q.transactionsQuery.data.getD []

/-- The destructuring `data: notifications = []` of line 61. -/
def LayoutQueries.notifications (q : LayoutQueries) : List Notification :=
  q.notificationsQuery.data.getD []

/-! ## Mobile sidebar and clicks -/

/-- What an `onClick` handler on the way of a click does. -/
inductive Handler where
  | setSidebarOpen (value : Bool)
  | stopPropagation
deriving DecidableEq, Repr

/-- The elements of `Layout` a user can click. -/
inductive ClickTarget where
  | menuButton
  | backdrop
  | mobileAside
  | closeButton
  | mobileNavLink (item : NavItem)
  | desktopNavLink (item : NavItem)
  | notificationItem (notif : Notification)
  | markAllReadButton
  | profileLink (url : String)
  | signOutItem
deriving DecidableEq, Repr

/-- The `onClick` handlers a click meets, from the clicked element up to the
root: the mobile sidebar sits in the backdrop `div` (line 163), whose `aside`
child stops propagation (line 164). -/
def clickHandlers : ClickTarget → List Handler
  | .menuButton => [.setSidebarOpen true]
  | .backdrop => [.setSidebarOpen false]
  | .mobileAside => [.stopPropagation, .setSidebarOpen false]
  | .closeButton => [.setSidebarOpen false, .stopPropagation, .setSidebarOpen false]
  | .mobileNavLink _ => [.setSidebarOpen false, .stopPropagation, .setSidebarOpen false]
  | .desktopNavLink _ => []
  | .notificationItem _ => []
  | .markAllReadButton => []
  | .profileLink _ => []
  | .signOutItem => []

/-- Event bubbling over the state `sidebarOpen`: handlers run in order until one
stops the propagation. -/
def runHandlers : List Handler → Bool → Bool
  | [], sidebarOpen => sidebarOpen
  | .setSidebarOpen value :: rest, _ => runHandlers rest value
  | .stopPropagation :: _, sidebarOpen => sidebarOpen

/-- The state `sidebarOpen` after a click. -/
def sidebarAfterClick (sidebarOpen : Bool) (target : ClickTarget) : Bool :=
  runHandlers (clickHandlers target) sidebarOpen

/-- The initial value of the state: `useState(false)`. -/
def initialSidebarOpen : Bool := false

/-- Whether an element is in the rendered tree: the mobile sidebar and all its
children are rendered under `sidebarOpen &&` (line 162), the notification items
and the mark-all button when the loaded list is not empty (lines 258, 270). -/
def isRendered (sidebarOpen : Bool) (notifications : List Notification) : ClickTarget → Bool
  | .menuButton => true
  | .backdrop => sidebarOpen
  | .mobileAside => sidebarOpen
  | .closeButton => sidebarOpen
  | .mobileNavLink _ => sidebarOpen
  | .desktopNavLink _ => true
  | .notificationItem notif => decide (notif ∈ notifications)
  | .markAllReadButton => decide (notifications.length > 0)
  | .profileLink _ => true
  | .signOutItem => true

/-- The clicks that close the mobile sidebar in the specification: the close
button, the backdrop, and a navigation link of the mobile sidebar. -/
def isClosingClick : ClickTarget → Bool
  | .closeButton => true
  | .backdrop => true
  | .mobileNavLink _ => true
  | _ => false

/-! ## The component against the backend -/

/-- State held by a mounted `Layout`: the sidebar flag and the data of its three
queries. The route belongs to the router and is an input of the rendering. -/
structure LayoutState where
  sidebarOpen : Bool
  user : Option User
  transactions : Option (List Transaction)
  notifications : Option (List Notification)
deriving DecidableEq, Repr

/-- The component together with the backend it talks to. -/
structure World where
  backend : Backend
  layout : LayoutState
deriving DecidableEq, Repr

/-- The reads of a backend that answers every request. -/
def Backend.services (b : Backend) : Services :=
  { me := fun _ => b.session
    transactionFilter := fun q _ => some (b.filterTransactions q)
    notificationFilter := fun q _ => some (b.filterNotifications q) }

/-- Mounting `Layout`: initial state and the first load of the queries. -/
def mount (defaultRetry : Nat) (b : Backend) : World :=
  let q := layoutQueries defaultRetry b.services
  { backend := b
    layout :=
      { sidebarOpen := initialSidebarOpen
        user := q.user.data
        transactions := q.transactionsQuery.data
        notifications := q.notificationsQuery.data } }

/-- Modelled from the spec: the refetch that follows `invalidateQueries` on the
`notifications` key: the query runs again when it is enabled. -/
def refetchNotifications (b : Backend) (l : LayoutState) : LayoutState :=
  match l.user with
  | some u => { l with notifications := some (notificationsQueryFn b (some u)) }
  | none => l

/-- The component state after a mutation run: the notification list is
refetched when the run invalidated the query, and left as loaded otherwise. -/
def afterMutation (run : MutationRun Backend) (l : LayoutState) : LayoutState :=
  match run.invalidatedAt with
  | some _ => refetchNotifications run.backend l
  | none => l

/-- The handler `handleLogout` (lines 95-97). -/
def handleLogout (b : Backend) : Backend :=
  b.logout

/-- One click on the mounted component. A click on a link hands its url to the
router, which is outside the component state. -/
def step (net : Network) (w : World) (target : ClickTarget) : World :=
  let l := { w.layout with sidebarOpen := sidebarAfterClick w.layout.sidebarOpen target }
  match target with
  | .mobileNavLink _ => { w with layout := l }
  | .desktopNavLink _ => { w with layout := l }
  | .profileLink _ => { w with layout := l }
  | .notificationItem notif =>
    let run := handleNotificationClick (Backend.respond net) w.backend notif
    { backend := run.backend, layout := afterMutation run l }
  | .markAllReadButton =>
    let run := markAllAsReadMutation (Backend.respond net) w.backend
      (l.notifications.getD [])
    { backend := run.backend, layout := afterMutation run l }
  | .signOutItem => { backend := handleLogout w.backend, layout := l }
  | .menuButton => { w with layout := l }
  | .backdrop => { w with layout := l }
  | .mobileAside => { w with layout := l }
  | .closeButton => { w with layout := l }

/-- A sequence of clicks, each under the network conditions of its moment. -/
def run (w : World) (events : List (Network × ClickTarget)) : World :=
  events.foldl (fun v e => step e.1 v e.2) w

/-- The loaded notification list covers the backend: when the identity is
present, a list is loaded and every unread notification of the identity in the
backend has its id in the list. -/
def Covers (w : World) : Prop :=
  ∀ u, w.layout.user = some u →
    ∃ N, w.layout.notifications = some N ∧
      ∀ n ∈ notificationsQueryFn w.backend (some u), n.id ∈ N.map Notification.id

/-- A write request sent to the backend. -/
inductive BackendWrite where
  | notificationUpdate (call : UpdateCall)
  | logout
deriving DecidableEq, Repr

/-- The write requests a click sends, in order: those of the handler bound to the
clicked element. -/
def writesOfClick (l : LayoutState) : ClickTarget → List BackendWrite
  | .notificationItem notif => [.notificationUpdate (markAsReadCall notif.id)]
  | .markAllReadButton =>
    (markAllAsReadCalls (l.notifications.getD [])).map BackendWrite.notificationUpdate
  | .signOutItem => [.logout]
  | .menuButton => []
  | .backdrop => []
  | .mobileAside => []
  | .closeButton => []
  | .mobileNavLink _ => []
  | .desktopNavLink _ => []
  | .profileLink _ => []

/-- The backend after a write request. -/
def applyWrite (net : Network) (b : Backend) : BackendWrite → Backend
  | .notificationUpdate call => (Backend.respond net b call).2
  | .logout => b.logout

/-- A service that accepts every update call and records it. -/
def recordingService (log : List UpdateCall) (c : UpdateCall) : Settled × List UpdateCall :=
  ({ settledAt := 0, outcome := .fulfilled }, log ++ [c])

/-- A notification with its read flag blanked: everything but the flag. -/
def Notification.withoutReadFlag (n : Notification) : Notification :=
  { n with is_read := false }

/-! ## JavaScript numbers: proofs -/

/-- Zero has no binary digit, whatever the fuel. -/
theorem bitLengthAux_zero (fuel : Nat) : bitLengthAux fuel 0 = 0 := by
  cases fuel <;> simp [bitLengthAux]

/-- With enough fuel the digit count `L` of `n` satisfies `n < 2 ^ L`, and `2 ^ L ≤ 2 * n` when `n` is not zero. -/
theorem bitLengthAux_spec (fuel : Nat) : ∀ n, n ≤ fuel →
    n < 2 ^ bitLengthAux fuel n ∧ (n ≠ 0 → 2 ^ bitLengthAux fuel n ≤ 2 * n) := by
  induction fuel with
  | zero =>
    intro n hn
    have : n = 0 := by omega
    subst this
    simp [bitLengthAux]
  | succ fuel ih =>
    intro n hn
    by_cases h0 : n = 0
    · subst h0
      simp [bitLengthAux]
    · have hle : n / 2 ≤ fuel := by omega
      obtain ⟨h1, h2⟩ := ih (n / 2) hle
      simp only [bitLengthAux, h0, if_false, pow_succ]
      refine ⟨by omega, fun _ => ?_⟩
      by_cases hh : n / 2 = 0
      · rw [hh, bitLengthAux_zero]
        simp
        omega
      · have := h2 hh
        omega

/-- A number is below two to the power of its digit count. -/
theorem lt_two_pow_bitLength (n : Nat) : n < 2 ^ bitLength n :=
  (bitLengthAux_spec n n (Nat.le_refl n)).1

/-- Two to the power of the digit count is at most twice the number. -/
theorem two_pow_bitLength_le (n : Nat) (h : n ≠ 0) : 2 ^ bitLength n ≤ 2 * n :=
  (bitLengthAux_spec n n (Nat.le_refl n)).2 h

/-- Zero has no binary digit. -/
theorem bitLength_zero : bitLength 0 = 0 := rfl

/-- The digit count is determined by the two bounds. -/
theorem bitLength_unique (n L : Nat) (h : n ≠ 0) (h1 : 2 ^ L ≤ 2 * n) (h2 : n < 2 ^ L) :
    bitLength n = L := by
  have a1 := lt_two_pow_bitLength n
  have a2 := two_pow_bitLength_le n h
  apply Nat.le_antisymm
  · by_contra hc
    have : 2 ^ (L + 1) ≤ 2 ^ bitLength n := Nat.pow_le_pow_right (by decide) (by omega)
    rw [pow_succ] at this
    omega
  · by_contra hc
    have : 2 ^ (bitLength n + 1) ≤ 2 ^ L := Nat.pow_le_pow_right (by decide) (by omega)
    rw [pow_succ] at this
    omega

/-- Multiplying by a power of two adds that many digits. -/
theorem bitLength_mul_two_pow (n j : Nat) (h : n ≠ 0) :
    bitLength (n * 2 ^ j) = bitLength n + j := by
  have hp : 0 < 2 ^ j := Nat.two_pow_pos j
  apply bitLength_unique
  · exact Nat.mul_ne_zero h (by omega)
  · rw [pow_add]
    have := two_pow_bitLength_le n h
    calc 2 ^ bitLength n * 2 ^ j ≤ (2 * n) * 2 ^ j := Nat.mul_le_mul_right _ this
      _ = 2 * (n * 2 ^ j) := by ring
  · rw [pow_add]
    exact Nat.mul_lt_mul_of_pos_right (lt_two_pow_bitLength n) hp

/-- A number below `2 ^ k` has at most `k` digits. -/
theorem bitLength_le_of_lt (n k : Nat) (h : n < 2 ^ k) : bitLength n ≤ k := by
  by_cases h0 : n = 0
  · subst h0; simp [bitLength_zero]
  · have a2 := two_pow_bitLength_le n h0
    by_contra hc
    have : 2 ^ (k + 1) ≤ 2 ^ bitLength n := Nat.pow_le_pow_right (by decide) (by omega)
    rw [pow_succ] at this
    omega

/-- A non-zero number has at least one digit. -/
theorem bitLength_pos (n : Nat) (h : n ≠ 0) : 0 < bitLength n := by
  have := lt_two_pow_bitLength n
  by_contra hc
  have h0 : bitLength n = 0 := by omega
  rw [h0] at this
  simp at this
  exact h this

/-- Rounding a quotient by one changes nothing. -/
theorem shiftRightRound_zero (n : Nat) : shiftRightRound n 0 = n := by
  simp [shiftRightRound, Nat.mod_one]

/-- Rounded division is unchanged when numerator and divisor are scaled by the same power of two. -/
theorem shiftRightRound_scale (M k j : Nat) :
    shiftRightRound (M * 2 ^ j) (k + j) = shiftRightRound M k := by
  have hp : 0 < 2 ^ j := Nat.two_pow_pos j
  have hq : M * 2 ^ j / 2 ^ (k + j) = M / 2 ^ k := by
    rw [pow_add]
    exact Nat.mul_div_mul_right _ _ hp
  have hr : M * 2 ^ j % 2 ^ (k + j) = M % 2 ^ k * 2 ^ j := by
    rw [pow_add]
    exact Nat.mul_mod_mul_right _ _ _
  unfold shiftRightRound
  rw [hq, hr]
  have e1 : (2 ^ (k + j) < 2 * (M % 2 ^ k * 2 ^ j)) ↔ (2 ^ k < 2 * (M % 2 ^ k)) := by
    rw [pow_add, ← Nat.mul_assoc]
    exact Nat.mul_lt_mul_right hp
  have e2 : (2 * (M % 2 ^ k * 2 ^ j) = 2 ^ (k + j)) ↔ (2 * (M % 2 ^ k) = 2 ^ k) := by
    rw [pow_add, ← Nat.mul_assoc]
    exact Nat.mul_left_inj (by omega)
  simp only [e1, e2]

/-- Rounded division of an exact multiple is the exact quotient. -/
theorem shiftRightRound_exact (M k : Nat) : shiftRightRound (M * 2 ^ k) k = M := by
  have := shiftRightRound_scale M 0 k
  rw [Nat.zero_add] at this
  rw [this, shiftRightRound_zero]

/-- Rounded division is at least the truncated quotient. -/
theorem le_shiftRightRound (n k : Nat) : n / 2 ^ k ≤ shiftRightRound n k := by
  unfold shiftRightRound
  split <;> omega

/-- The rounding exponent depends only on the value `M * 2 ^ E`. -/
theorem roundExponent_scale (M j : Nat) (E : Int) (h : M ≠ 0) :
    roundExponent (M * 2 ^ j) (E - j) = roundExponent M E := by
  unfold roundExponent
  rw [bitLength_mul_two_pow M j h]
  push_cast
  congr 1
  ring

/-- The rounded significand depends only on the value `M * 2 ^ E`. -/
theorem roundMantissa_scale (M j : Nat) (E : Int) (h : M ≠ 0) :
    roundMantissa (M * 2 ^ j) (E - j) = roundMantissa M E := by
  unfold roundMantissa
  rw [roundExponent_scale M j E h]
  generalize roundExponent M E = t
  by_cases h1 : E ≤ t
  · have h2 : E - (j : Int) ≤ t := by omega
    rw [if_pos h1, if_pos h2]
    have hk : (t - (E - (j : Int))).toNat = (t - E).toNat + j := by omega
    rw [hk, shiftRightRound_scale]
  · by_cases h2 : E - (j : Int) ≤ t
    · rw [if_neg h1, if_pos h2]
      have hj : j = (E - t).toNat + (t - (E - (j : Int))).toNat := by omega
      have hm : M * 2 ^ j =
          (M * 2 ^ (E - t).toNat) * 2 ^ (t - (E - (j : Int))).toNat := by
        rw [Nat.mul_assoc, ← pow_add]
        exact congrArg (fun x => M * 2 ^ x) hj
      rw [hm, shiftRightRound_exact]
    · rw [if_neg h1, if_neg h2]
      have hk : (E - t).toNat = j + (E - (j : Int) - t).toNat := by omega
      rw [hk, pow_add, Nat.mul_assoc]

/-- Rounding depends only on the value `M * 2 ^ E`, not on how it is written. -/
theorem roundFinite_scale (s : Bool) (M j : Nat) (E : Int) (h : M ≠ 0) :
    roundFinite s (M * 2 ^ j) (E - j) = roundFinite s M E := by
  unfold roundFinite
  rw [roundMantissa_scale M j E h, roundExponent_scale M j E h]

/-- The exponent of a finite value is at least the subnormal exponent. -/
theorem exponentOf_ge (be : Fin 2047) : -1074 ≤ exponentOf be := by
  unfold exponentOf
  split <;> omega

/-- The exponent of a finite value is at most the largest exponent. -/
theorem exponentOf_le (be : Fin 2047) : exponentOf be ≤ 971 := by
  unfold exponentOf
  have := be.isLt
  split <;> omega

/-- The numeral of `2 ^ 52`. -/
theorem two_pow_52 : (2 : Nat) ^ 52 = 4503599627370496 := by norm_num

/-- The numeral of `2 ^ 53`. -/
theorem two_pow_53 : (2 : Nat) ^ 53 = 9007199254740992 := by norm_num

/-- Finite values with the same sign and the same field values are equal. -/
theorem finite_congr (s : Bool) (be1 be2 : Fin 2047) (fr1 fr2 : Fin 4503599627370496)
    (h1 : be1.val = be2.val) (h2 : fr1.val = fr2.val) :
    JSNumber.finite s be1 fr1 = JSNumber.finite s be2 fr2 := by
  have e1 : be1 = be2 := Fin.ext h1
  have e2 : fr1 = fr2 := Fin.ext h2
  rw [e1, e2]

/-- Rounding the exact value of a finite number gives that number back. -/
theorem roundFinite_canonical (s : Bool) (be : Fin 2047) (fr : Fin 4503599627370496) :
    roundFinite s (mantissaOf be fr) (exponentOf be) = .finite s be fr := by
  have hfr := fr.isLt
  have hbe := be.isLt
  by_cases hb : be.val = 0
  · have hm : mantissaOf be fr = fr.val := by simp [mantissaOf, hb]
    have he : exponentOf be = -1074 := by simp [exponentOf, hb]
    have hL : bitLength fr.val ≤ 52 := bitLength_le_of_lt _ _ (by rw [two_pow_52]; exact hfr)
    have ht : roundExponent fr.val (-1074) = -1074 := by
      unfold roundExponent
      omega
    have hrm : roundMantissa fr.val (-1074) = fr.val := by
      unfold roundMantissa
      rw [ht]
      simp [shiftRightRound_zero]
    rw [hm, he]
    unfold roundFinite
    rw [hrm, ht]
    have hne : fr.val ≠ 9007199254740992 := by omega
    rw [if_neg hne]
    unfold encode
    rw [if_neg (by omega), if_pos hfr]
    apply finite_congr
    · exact hb.symm
    · exact Nat.mod_eq_of_lt hfr
  · have hm : mantissaOf be fr = 4503599627370496 + fr.val := by simp [mantissaOf, hb]
    have he : exponentOf be = (be.val : Int) - 1075 := by simp [exponentOf, hb]
    have hL : bitLength (4503599627370496 + fr.val) = 53 := by
      apply bitLength_unique
      · omega
      · rw [two_pow_53]; omega
      · rw [two_pow_53]; omega
    have ht : roundExponent (4503599627370496 + fr.val) ((be.val : Int) - 1075) =
        (be.val : Int) - 1075 := by
      unfold roundExponent
      rw [hL]
      omega
    have hrm : roundMantissa (4503599627370496 + fr.val) ((be.val : Int) - 1075) =
        4503599627370496 + fr.val := by
      unfold roundMantissa
      rw [ht]
      simp [shiftRightRound_zero]
    rw [hm, he]
    unfold roundFinite
    rw [hrm, ht]
    have hne : 4503599627370496 + fr.val ≠ 9007199254740992 := by omega
    rw [if_neg hne]
    unfold encode
    rw [if_neg (by omega), if_neg (by omega)]
    apply finite_congr
    · show ((be.val : Int) - 1075 + 1075).toNat % 2047 = be.val
      have : ((be.val : Int) - 1075 + 1075).toNat = be.val := by omega
      rw [this]
      exact Nat.mod_eq_of_lt hbe
    · show (4503599627370496 + fr.val - 4503599627370496) % 4503599627370496 = fr.val
      rw [Nat.add_sub_cancel_left]
      exact Nat.mod_eq_of_lt hfr

/-- A signed magnitude is zero exactly when the magnitude is. -/
theorem signed_eq_zero (s : Bool) (x : Nat) : signed s x = 0 ↔ x = 0 := by
  unfold signed
  cases s <;> simp

/-- The sign of a non-zero signed magnitude. -/
theorem signed_neg (s : Bool) (x : Nat) (h : x ≠ 0) : decide (signed s x < 0) = s := by
  unfold signed
  cases s
  · simp
  · simp
    omega

/-- The magnitude of a signed magnitude. -/
theorem natAbs_signed (s : Bool) (x : Nat) : (signed s x).natAbs = x := by
  unfold signed
  cases s <;> simp

/-- An integer is its magnitude with its sign. -/
theorem signed_natAbs (n : Int) : signed (decide (n < 0)) n.natAbs = n := by
  unfold signed
  by_cases h : n < 0
  · rw [decide_eq_true h, if_pos rfl]
    omega
  · rw [decide_eq_false h, if_neg (by decide)]
    omega

/-- Scaling a signed magnitude. -/
theorem signed_mul (s : Bool) (x y : Nat) : signed s (x * y) = signed s x * (y : Int) := by
  unfold signed
  cases s <;> simp

/-- The sum of two finite values, unfolded. -/
theorem add_finite (s1 : Bool) (be1 : Fin 2047) (fr1 : Fin 4503599627370496)
    (s2 : Bool) (be2 : Fin 2047) (fr2 : Fin 4503599627370496) :
    (JSNumber.finite s1 be1 fr1).add (.finite s2 be2 fr2) =
      if exactSum s1 be1 fr1 s2 be2 fr2 = 0 then
        .finite (s1 && s2) ⟨0, by decide⟩ ⟨0, by decide⟩
      else
        roundFinite (decide (exactSum s1 be1 fr1 s2 be2 fr2 < 0))
          (exactSum s1 be1 fr1 s2 be2 fr2).natAbs (commonExponent be1 be2) := rfl

/-- The exponent field 0 stands for the subnormal exponent. -/
theorem exponentOf_zero : exponentOf ⟨0, by decide⟩ = -1074 := rfl

/-- The significand of zero. -/
theorem mantissaOf_zero : mantissaOf ⟨0, by decide⟩ ⟨0, by decide⟩ = 0 := rfl

/-- Adding a zero on the right to a non-zero finite value is exact. -/
theorem add_zero_right (s s2 : Bool) (be : Fin 2047) (fr : Fin 4503599627370496)
    (h : mantissaOf be fr ≠ 0) :
    (JSNumber.finite s be fr).add (.finite s2 ⟨0, by decide⟩ ⟨0, by decide⟩) =
      .finite s be fr := by
  have hge := exponentOf_ge be
  have hc : commonExponent be ⟨0, by decide⟩ = -1074 := by
    unfold commonExponent
    rw [exponentOf_zero]
    omega
  have hS : exactSum s be fr s2 ⟨0, by decide⟩ ⟨0, by decide⟩ =
      signed s (mantissaOf be fr * 2 ^ (exponentOf be + 1074).toNat) := by
    unfold exactSum
    rw [hc, mantissaOf_zero]
    simp [signed]
  have hpos : mantissaOf be fr * 2 ^ (exponentOf be + 1074).toNat ≠ 0 :=
    Nat.mul_ne_zero h (by positivity)
  rw [add_finite, hS, hc, if_neg (by rw [signed_eq_zero]; exact hpos), signed_neg _ _ hpos, natAbs_signed]
  have he : (-1074 : Int) = exponentOf be - ((exponentOf be + 1074).toNat : Nat) := by omega
  rw [he, roundFinite_scale _ _ _ _ h, roundFinite_canonical]

/-- Adding a zero on the left to a non-zero finite value is exact. -/
theorem add_zero_left (s s2 : Bool) (be : Fin 2047) (fr : Fin 4503599627370496)
    (h : mantissaOf be fr ≠ 0) :
    (JSNumber.finite s2 ⟨0, by decide⟩ ⟨0, by decide⟩).add (.finite s be fr) =
      .finite s be fr := by
  have hge := exponentOf_ge be
  have hc : commonExponent ⟨0, by decide⟩ be = -1074 := by
    unfold commonExponent
    rw [exponentOf_zero]
    omega
  have hS : exactSum s2 ⟨0, by decide⟩ ⟨0, by decide⟩ s be fr =
      signed s (mantissaOf be fr * 2 ^ (exponentOf be + 1074).toNat) := by
    unfold exactSum
    rw [hc, mantissaOf_zero]
    simp [signed]
  have hpos : mantissaOf be fr * 2 ^ (exponentOf be + 1074).toNat ≠ 0 :=
    Nat.mul_ne_zero h (by positivity)
  rw [add_finite, hS, hc, if_neg (by rw [signed_eq_zero]; exact hpos), signed_neg _ _ hpos, natAbs_signed]
  have he : (-1074 : Int) = exponentOf be - ((exponentOf be + 1074).toNat : Nat) := by omega
  rw [he, roundFinite_scale _ _ _ _ h, roundFinite_canonical]

/-- A non-zero integer below `2 ^ 53` is represented exactly: its significand is the integer shifted to 53 bits. -/
theorem roundFinite_int (s : Bool) (N : Nat) (h0 : N ≠ 0) (h : N < 9007199254740992) :
    ∃ be fr, roundFinite s N 0 = .finite s be fr ∧
      mantissaOf be fr = N * 2 ^ (53 - bitLength N) ∧
      exponentOf be = (bitLength N : Int) - 53 := by
  have hL1 : 0 < bitLength N := bitLength_pos N h0
  have hL2 : bitLength N ≤ 53 := bitLength_le_of_lt N 53 (by rw [two_pow_53]; exact h)
  have hlt := lt_two_pow_bitLength N
  have hle := two_pow_bitLength_le N h0
  have hpow : 2 ^ bitLength N * 2 ^ (53 - bitLength N) = 9007199254740992 := by
    rw [← pow_add, ← two_pow_53]
    congr 1
    omega
  have hpp : 0 < 2 ^ (53 - bitLength N) := Nat.two_pow_pos _
  have hm1 : N * 2 ^ (53 - bitLength N) < 9007199254740992 := by
    rw [← hpow]
    exact Nat.mul_lt_mul_of_pos_right hlt hpp
  have hm2 : 4503599627370496 ≤ N * 2 ^ (53 - bitLength N) := by
    have : 2 ^ bitLength N * 2 ^ (53 - bitLength N) ≤ 2 * N * 2 ^ (53 - bitLength N) :=
      Nat.mul_le_mul_right _ hle
    rw [hpow, Nat.mul_assoc] at this
    omega
  have ht : roundExponent N 0 = (bitLength N : Int) - 53 := by
    unfold roundExponent
    omega
  have hrm : roundMantissa N 0 = N * 2 ^ (53 - bitLength N) := by
    unfold roundMantissa
    rw [ht]
    by_cases h53 : bitLength N = 53
    · rw [h53]
      simp [shiftRightRound_zero]
    · have hneg : ¬ ((0 : Int) ≤ (bitLength N : Int) - 53) := by omega
      rw [if_neg hneg]
      congr 2
      omega
  refine ⟨⟨(((bitLength N : Int) - 53) + 1075).toNat % 2047, Nat.mod_lt _ (by decide)⟩,
    ⟨(N * 2 ^ (53 - bitLength N) - 4503599627370496) % 4503599627370496,
      Nat.mod_lt _ (by decide)⟩, ?_, ?_, ?_⟩
  · unfold roundFinite
    rw [hrm, ht, if_neg (by omega)]
    unfold encode
    rw [if_neg (by omega), if_neg (by omega)]
  · have hb : ((((bitLength N : Int) - 53) + 1075).toNat % 2047) = bitLength N + 1022 := by
      omega
    unfold mantissaOf
    simp only [hb]
    rw [if_neg (by omega)]
    omega
  · have hb : ((((bitLength N : Int) - 53) + 1075).toNat % 2047) = bitLength N + 1022 := by
      omega
    unfold exponentOf
    simp only [hb]
    rw [if_neg (by omega)]
    push_cast
    omega

/-- The number of the integer 0 is positive zero. -/
theorem ofInt_zero : JSNumber.ofInt 0 = JSNumber.zero := rfl

/-- The fields of the number of a non-zero integer of magnitude below `2 ^ 53`. -/
theorem ofInt_decode (n : Int) (h0 : n ≠ 0) (h : n.natAbs < 9007199254740992) :
    ∃ be fr, JSNumber.ofInt n = .finite (decide (n < 0)) be fr ∧
      mantissaOf be fr = n.natAbs * 2 ^ (53 - bitLength n.natAbs) ∧
      exponentOf be = (bitLength n.natAbs : Int) - 53 := by
  unfold JSNumber.ofInt
  rw [if_neg h0]
  exact roundFinite_int _ _ (by omega) h

/-- The number of a non-zero integer has a non-zero significand. -/
theorem mantissaOf_ofInt_ne_zero (n : Int) (be : Fin 2047) (fr : Fin 4503599627370496)
    (h0 : n ≠ 0) (hm : mantissaOf be fr = n.natAbs * 2 ^ (53 - bitLength n.natAbs)) :
    mantissaOf be fr ≠ 0 := by
  rw [hm]
  exact Nat.mul_ne_zero (by omega) (by positivity)

/-- Addition is exact on integers when operands and sum have magnitude below `2 ^ 53`. -/
theorem add_ofInt (a b : Int) (ha : a.natAbs < 9007199254740992)
    (hb : b.natAbs < 9007199254740992) (hab : (a + b).natAbs < 9007199254740992) :
    (JSNumber.ofInt a).add (JSNumber.ofInt b) = JSNumber.ofInt (a + b) := by
  by_cases ha0 : a = 0
  · subst ha0
    rw [Int.zero_add]
    by_cases hb0 : b = 0
    · subst hb0; rfl
    · obtain ⟨be, fr, h1, hm, _⟩ := ofInt_decode b hb0 hb
      rw [h1, ofInt_zero]
      exact add_zero_left _ _ _ _ (mantissaOf_ofInt_ne_zero b be fr hb0 hm)
  by_cases hb0 : b = 0
  · subst hb0
    rw [Int.add_zero]
    obtain ⟨be, fr, h1, hm, _⟩ := ofInt_decode a ha0 ha
    rw [h1, ofInt_zero]
    exact add_zero_right _ _ _ _ (mantissaOf_ofInt_ne_zero a be fr ha0 hm)
  obtain ⟨be1, fr1, h1, hm1, he1⟩ := ofInt_decode a ha0 ha
  obtain ⟨be2, fr2, h2, hm2, he2⟩ := ofInt_decode b hb0 hb
  have hLa1 : 0 < bitLength a.natAbs := bitLength_pos _ (by omega)
  have hLb1 : 0 < bitLength b.natAbs := bitLength_pos _ (by omega)
  have hLa2 : bitLength a.natAbs ≤ 53 := bitLength_le_of_lt _ 53 (by rw [two_pow_53]; exact ha)
  have hLb2 : bitLength b.natAbs ≤ 53 := bitLength_le_of_lt _ 53 (by rw [two_pow_53]; exact hb)
  have hc : commonExponent be1 be2 =
      -((53 - min (bitLength a.natAbs) (bitLength b.natAbs) : Nat) : Int) := by
    unfold commonExponent
    rw [he1, he2]
    omega
  have hx1 : mantissaOf be1 fr1 * 2 ^ (exponentOf be1 - commonExponent be1 be2).toNat =
      a.natAbs * 2 ^ (53 - min (bitLength a.natAbs) (bitLength b.natAbs)) := by
    rw [hm1, hc, he1, Nat.mul_assoc, ← pow_add]
    congr 2
    omega
  have hx2 : mantissaOf be2 fr2 * 2 ^ (exponentOf be2 - commonExponent be1 be2).toNat =
      b.natAbs * 2 ^ (53 - min (bitLength a.natAbs) (bitLength b.natAbs)) := by
    rw [hm2, hc, he2, Nat.mul_assoc, ← pow_add]
    congr 2
    omega
  have hS : exactSum (decide (a < 0)) be1 fr1 (decide (b < 0)) be2 fr2 =
      (a + b) * ((2 ^ (53 - min (bitLength a.natAbs) (bitLength b.natAbs)) : Nat) : Int) := by
    unfold exactSum
    rw [hx1, hx2, signed_mul, signed_mul, signed_natAbs, signed_natAbs]
    ring
  have hpos : (0 : Int) <
      ((2 ^ (53 - min (bitLength a.natAbs) (bitLength b.natAbs)) : Nat) : Int) := by
    exact_mod_cast Nat.two_pow_pos _
  rw [h1, h2, add_finite, hS]
  by_cases hsum : a + b = 0
  · rw [hsum, Int.zero_mul, if_pos rfl, ofInt_zero]
    have hs : (decide (a < 0) && decide (b < 0)) = false := by
      by_cases h3 : a < 0
      · have : ¬ b < 0 := by omega
        simp [this]
      · simp [h3]
    rw [hs]
    rfl
  · have hne : (a + b) *
        ((2 ^ (53 - min (bitLength a.natAbs) (bitLength b.natAbs)) : Nat) : Int) ≠ 0 :=
      Int.mul_ne_zero hsum (by omega)
    rw [if_neg hne]
    have hsign : decide ((a + b) *
        ((2 ^ (53 - min (bitLength a.natAbs) (bitLength b.natAbs)) : Nat) : Int) < 0) =
        decide (a + b < 0) := by
      congr 1
      apply propext
      constructor
      · intro h
        by_contra hc2
        have : 0 ≤ (a + b) *
            ((2 ^ (53 - min (bitLength a.natAbs) (bitLength b.natAbs)) : Nat) : Int) :=
          Int.mul_nonneg (by omega) (by omega)
        omega
      · intro h
        exact Int.mul_neg_of_neg_of_pos h hpos
    have habs : ((a + b) *
        ((2 ^ (53 - min (bitLength a.natAbs) (bitLength b.natAbs)) : Nat) : Int)).natAbs =
        (a + b).natAbs * 2 ^ (53 - min (bitLength a.natAbs) (bitLength b.natAbs)) := by
      rw [Int.natAbs_mul, Int.natAbs_ofNat]
    rw [hsign, habs, hc]
    have hE : -((53 - min (bitLength a.natAbs) (bitLength b.natAbs) : Nat) : Int) =
        (0 : Int) - ((53 - min (bitLength a.natAbs) (bitLength b.natAbs) : Nat) : Int) := by
      omega
    rw [hE, roundFinite_scale _ _ _ _ (by omega)]
    unfold JSNumber.ofInt
    rw [if_neg hsum]

/-- Negation commutes with rounding. -/
theorem neg_roundFinite (s : Bool) (M : Nat) (E : Int) :
    (roundFinite s M E).neg = roundFinite (!s) M E := by
  unfold roundFinite encode
  split_ifs <;> rfl

/-- The negative of the number of a non-zero integer. -/
theorem neg_ofInt (b : Int) (hb : b ≠ 0) : (JSNumber.ofInt b).neg = JSNumber.ofInt (-b) := by
  unfold JSNumber.ofInt
  rw [if_neg hb, if_neg (by omega), neg_roundFinite, Int.natAbs_neg]
  congr 1
  by_cases h : b < 0
  · have : ¬ (-b < 0) := by omega
    simp [h, this]
  · have : -b < 0 := by omega
    simp [h, this]

/-- Subtraction is exact on integers when operands and difference have magnitude below `2 ^ 53`. -/
theorem sub_ofInt (a b : Int) (ha : a.natAbs < 9007199254740992)
    (hb : b.natAbs < 9007199254740992) (hab : (a - b).natAbs < 9007199254740992) :
    (JSNumber.ofInt a).sub (JSNumber.ofInt b) = JSNumber.ofInt (a - b) := by
  unfold JSNumber.sub
  by_cases hb0 : b = 0
  · subst hb0
    rw [Int.sub_zero]
    by_cases ha0 : a = 0
    · subst ha0; rfl
    · obtain ⟨be, fr, h1, hm, _⟩ := ofInt_decode a ha0 ha
      rw [h1, ofInt_zero]
      exact add_zero_right _ _ _ _ (mantissaOf_ofInt_ne_zero a be fr ha0 hm)
  · rw [neg_ofInt b hb0, Int.sub_eq_add_neg]
    exact add_ofInt a (-b) ha (by rw [Int.natAbs_neg]; exact hb)
      (by rw [← Int.sub_eq_add_neg]; exact hab)

/-- The number of a non-zero integer of magnitude below `2 ^ 53` is truthy. -/
theorem truthy_ofInt (n : Int) (h0 : n ≠ 0) (h : n.natAbs < 9007199254740992) :
    (JSNumber.ofInt n).truthy = true := by
  obtain ⟨be, fr, h1, hm, _⟩ := ofInt_decode n h0 h
  rw [h1]
  simp [JSNumber.truthy, mantissaOf_ofInt_ne_zero n be fr h0 hm]

/-- The integer part of a finite value, unfolded. -/
theorem toInt_finite (s : Bool) (be : Fin 2047) (fr : Fin 4503599627370496) :
    (JSNumber.finite s be fr).toInt =
      if 0 ≤ exponentOf be then signed s (mantissaOf be fr * 2 ^ (exponentOf be).toNat)
      else signed s (mantissaOf be fr / 2 ^ (-exponentOf be).toNat) := rfl

/-- The integer part of zero. -/
theorem toInt_zero : JSNumber.zero.toInt = 0 := by
  unfold JSNumber.zero
  rw [toInt_finite, exponentOf_zero, mantissaOf_zero, if_neg (by decide), Nat.zero_div]
  rfl

/-- An integer of magnitude below `2 ^ 53` is read back from its number. -/
theorem toInt_ofInt (n : Int) (h : n.natAbs < 9007199254740992) :
    (JSNumber.ofInt n).toInt = n := by
  by_cases h0 : n = 0
  · subst h0
    rw [ofInt_zero, toInt_zero]
  obtain ⟨be, fr, h1, hm, he⟩ := ofInt_decode n h0 h
  have hL2 : bitLength n.natAbs ≤ 53 := bitLength_le_of_lt _ 53 (by rw [two_pow_53]; exact h)
  rw [h1, toInt_finite, he, hm]
  by_cases h53 : bitLength n.natAbs = 53
  · rw [h53]
    simp [signed_natAbs]
  · have hneg : ¬ ((0 : Int) ≤ (bitLength n.natAbs : Int) - 53) := by omega
    rw [if_neg hneg]
    have hk : (-((bitLength n.natAbs : Int) - 53)).toNat = 53 - bitLength n.natAbs := by omega
    rw [hk, Nat.mul_div_cancel _ (Nat.two_pow_pos _), signed_natAbs]

/-- A zero significand means both fields are zero. -/
theorem mantissaOf_eq_zero (be : Fin 2047) (fr : Fin 4503599627370496)
    (h : mantissaOf be fr = 0) : be.val = 0 ∧ fr.val = 0 := by
  unfold mantissaOf at h
  split at h
  · rename_i hb
    exact ⟨hb, h⟩
  · omega

/-- A non-zero value at an exponent not below the subnormal one does not round to a zero significand. -/
theorem roundMantissa_ne_zero (M : Nat) (E : Int) (hM : M ≠ 0) (hE : -1074 ≤ E) :
    roundMantissa M E ≠ 0 := by
  have hL := bitLength_pos M hM
  have hle := two_pow_bitLength_le M hM
  unfold roundMantissa
  split
  · rename_i h1
    have hk : (roundExponent M E - E).toNat + 1 ≤ bitLength M := by
      unfold roundExponent at h1 ⊢
      omega
    have hpow : 2 ^ ((roundExponent M E - E).toNat + 1) ≤ 2 ^ bitLength M :=
      Nat.pow_le_pow_right (by decide) hk
    rw [pow_succ] at hpow
    have hdiv : 0 < M / 2 ^ (roundExponent M E - E).toNat :=
      Nat.div_pos (by omega) (Nat.two_pow_pos _)
    have := le_shiftRightRound M (roundExponent M E - E).toNat
    omega
  · exact Nat.mul_ne_zero hM (by positivity)

/-- The rounding exponent is at least the subnormal exponent. -/
theorem roundExponent_ge (M : Nat) (E : Int) : -1074 ≤ roundExponent M E := by
  unfold roundExponent
  omega

/-- A non-zero significand does not encode a zero. -/
theorem encode_ne_zero (s s2 : Bool) (m : Nat) (t : Int) (hm : m ≠ 0) (ht : -1074 ≤ t) :
    encode s m t ≠ .finite s2 ⟨0, by decide⟩ ⟨0, by decide⟩ := by
  unfold encode
  split
  · intro h; cases h
  · split
    · rename_i h1 h2
      intro h
      injection h with _ _ hfr
      have := congrArg Fin.val hfr
      simp only at this
      rw [Nat.mod_eq_of_lt h2] at this
      exact hm this
    · rename_i h1 h2
      intro h
      injection h with _ hbe _
      have := congrArg Fin.val hbe
      simp only at this
      omega

/-- A sum of finite values that is not exactly zero does not round to a zero. -/
theorem roundFinite_ne_zero (s s2 : Bool) (M : Nat) (E : Int) (hM : M ≠ 0)
    (hE : -1074 ≤ E) :
    roundFinite s M E ≠ .finite s2 ⟨0, by decide⟩ ⟨0, by decide⟩ := by
  unfold roundFinite
  split
  · exact encode_ne_zero _ _ _ _ (by decide) (by have := roundExponent_ge M E; omega)
  · exact encode_ne_zero _ _ _ _ (roundMantissa_ne_zero M E hM hE) (roundExponent_ge M E)

/-- The common exponent of two finite values is at least the subnormal exponent. -/
theorem commonExponent_ge (be1 be2 : Fin 2047) : -1074 ≤ commonExponent be1 be2 := by
  unfold commonExponent
  have := exponentOf_ge be1
  have := exponentOf_ge be2
  omega

/-- A sum is `-0` only if its left operand is `-0`. -/
theorem add_eq_negZero (x y : JSNumber) (h : x.add y = JSNumber.negZero) :
    x = JSNumber.negZero := by
  cases x with
  | nan => cases y <;> simp [JSNumber.add, JSNumber.negZero] at h
  | infinity a =>
    cases y with
    | nan => simp [JSNumber.add, JSNumber.negZero] at h
    | infinity b =>
      simp only [JSNumber.add, JSNumber.negZero] at h
      split at h <;> cases h
    | finite s2 be2 fr2 => simp [JSNumber.add, JSNumber.negZero] at h
  | finite s1 be1 fr1 =>
    cases y with
    | nan => simp [JSNumber.add, JSNumber.negZero] at h
    | infinity b => simp [JSNumber.add, JSNumber.negZero] at h
    | finite s2 be2 fr2 =>
      rw [add_finite] at h
      split at h
      · rename_i hS
        unfold JSNumber.negZero at h
        injection h with hs _ _
        have hs1 : s1 = true := by
          cases s1
          · simp at hs
          · rfl
        have hs2 : s2 = true := by
          cases s2
          · simp at hs
          · rfl
        subst hs1 hs2
        unfold exactSum signed at hS
        simp only [if_true] at hS
        have hz : mantissaOf be1 fr1 *
            2 ^ (exponentOf be1 - commonExponent be1 be2).toNat = 0 := by omega
        have hm : mantissaOf be1 fr1 = 0 := by
          rcases Nat.mul_eq_zero.mp hz with h0 | h0
          · exact h0
          · exact absurd h0 (by positivity)
        obtain ⟨hb, hf⟩ := mantissaOf_eq_zero be1 fr1 hm
        unfold JSNumber.negZero
        exact finite_congr true _ _ _ _ hb hf
      · rename_i hS
        exact absurd h
          (roundFinite_ne_zero _ _ _ _ (by omega) (commonExponent_ge be1 be2))

/-- Adding `0` to a number other than `-0` leaves it unchanged. -/
theorem add_zero (x : JSNumber) (h : x ≠ JSNumber.negZero) : x.add JSNumber.zero = x := by
  cases x with
  | nan => rfl
  | infinity a => rfl
  | finite s be fr =>
    by_cases hm : mantissaOf be fr = 0
    · obtain ⟨hb, hf⟩ := mantissaOf_eq_zero be fr hm
      have hx : JSNumber.finite s be fr = .finite s ⟨0, by decide⟩ ⟨0, by decide⟩ :=
        finite_congr s _ _ _ _ hb hf
      rw [hx] at h ⊢
      cases s
      · rfl
      · exact absurd rfl h
    · exact add_zero_right s false be fr hm

/-! ## Point balance: proofs -/

/-- The balance of no transaction is the number `0`. -/
theorem totalPoints_nil : totalPoints [] = JSNumber.zero := rfl

/-- The two type tests of the source, written with equality. -/
theorem filter_type_eq (T : List Transaction) (ty : String) :
    T.filter (fun t => t.type == some ty) = T.filter (fun t => decide (t.type = some ty)) := by
  apply List.filter_congr
  intro t _
  rw [Bool.eq_iff_iff]
  simp

/-- The summand `t.points || 0` of a transaction with a safe integer amount is
that integer. -/
theorem orZero_eq_amount (t : Transaction)
    (hint : t.points = .undefined ∨ t.points = .null ∨
      t.points = .number (JSNumber.ofInt t.amount))
    (hsafe : t.amount.natAbs < 9007199254740992) :
    t.points.orZero = JSNumber.ofInt t.amount := by
  rcases hint with h | h | h
  · simp [Transaction.amount, h, JSValue.orZero, ofInt_zero]
  · simp [Transaction.amount, h, JSValue.orZero, ofInt_zero]
  · generalize t.amount = n at h hsafe
    rw [h]
    by_cases h0 : n = 0
    · subst h0
      rfl
    · simp [JSValue.orZero, JSValue.truthy, truthy_ofInt n h0 hsafe]

/-- The magnitude of a sum is at most the sum of the magnitudes. -/
theorem natAbs_sum_le (l : List Transaction) :
    ((l.map Transaction.amount).sum).natAbs ≤ (l.map (fun t => t.amount.natAbs)).sum := by
  induction l with
  | nil => simp
  | cons t ts ih =>
    simp only [List.map_cons, List.sum_cons]
    have := Int.natAbs_add_le t.amount ((ts.map Transaction.amount).sum)
    omega

/-- The `reduce` of the source over safe integer amounts, started from an
integer, adds the amounts exactly. -/
theorem reduce_points (l : List Transaction) (acc : Int)
    (hint : ∀ t ∈ l, t.points = .undefined ∨ t.points = .null ∨
      t.points = .number (JSNumber.ofInt t.amount))
    (hsafe : acc.natAbs + (l.map (fun t => t.amount.natAbs)).sum < 9007199254740992) :
    l.foldl (fun sum t => sum.add t.points.orZero) (JSNumber.ofInt acc) =
      JSNumber.ofInt (acc + (l.map Transaction.amount).sum) := by
  induction l generalizing acc with
  | nil => simp
  | cons t ts ih =>
    simp only [List.map_cons, List.sum_cons] at hsafe
    simp only [List.foldl_cons, List.map_cons, List.sum_cons]
    have hadd := Int.natAbs_add_le acc t.amount
    rw [orZero_eq_amount t (hint t (List.mem_cons_self _ _)) (by omega),
      add_ofInt acc t.amount (by omega) (by omega) (by omega),
      ih (acc + t.amount) (fun x hx => hint x (List.mem_cons_of_mem _ hx)) (by omega)]
    congr 1
    ring

/-- The amounts of the earned and of the redeemed transactions together are the
amounts of the transactions of either type. -/
theorem sum_natAbs_split (T : List Transaction) :
    ((T.filter (fun t => decide (t.type = some "earned"))).map
        (fun t => t.amount.natAbs)).sum +
      ((T.filter (fun t => decide (t.type = some "redeemed"))).map
        (fun t => t.amount.natAbs)).sum =
    ((T.filter (fun t => decide (t.type = some "earned" ∨ t.type = some "redeemed"))).map
      (fun t => t.amount.natAbs)).sum := by
  induction T with
  | nil => rfl
  | cons t ts ih =>
    have hne : ¬ (some "earned" : Option String) = some "redeemed" := by decide
    have hne2 : ¬ (some "redeemed" : Option String) = some "earned" := by decide
    by_cases h1 : t.type = some "earned"
    · simp only [List.filter_cons, h1, hne, decide_True, decide_False, true_or, if_true,
        Bool.false_eq_true, if_false, List.map_cons, List.sum_cons]
      omega
    · by_cases h2 : t.type = some "redeemed"
      · simp only [List.filter_cons, h2, hne2, decide_True, decide_False, or_true, if_true,
          Bool.false_eq_true, if_false, List.map_cons, List.sum_cons]
        omega
      · simp only [List.filter_cons, h1, h2, decide_False, or_self, Bool.false_eq_true,
          if_false]
        exact ih

/-- On safe integer amounts the balance of the source is the exact balance. -/
theorem totalPoints_safe (T : List Transaction)
    (hint : ∀ t ∈ T, t.type = some "earned" ∨ t.type = some "redeemed" →
      t.points = .undefined ∨ t.points = .null ∨
        t.points = .number (JSNumber.ofInt t.amount))
    (hsafe : ((T.filter (fun t => decide (t.type = some "earned" ∨
        t.type = some "redeemed"))).map (fun t => t.amount.natAbs)).sum ≤
      9007199254740991) :
    totalPoints T = JSNumber.ofInt (specBalance T) := by
  have hsplit := sum_natAbs_split T
  have he := natAbs_sum_le (T.filter (fun t => decide (t.type = some "earned")))
  have hr := natAbs_sum_le (T.filter (fun t => decide (t.type = some "redeemed")))
  have hsub := Int.natAbs_sub_le
    (((T.filter (fun t => decide (t.type = some "earned"))).map Transaction.amount).sum)
    (((T.filter (fun t => decide (t.type = some "redeemed"))).map Transaction.amount).sum)
  unfold totalPoints specBalance
  rw [filter_type_eq, filter_type_eq, ← ofInt_zero,
    reduce_points _ 0
      (fun t ht => hint t (List.mem_of_mem_filter ht)
        (Or.inl (of_decide_eq_true (List.mem_filter.mp ht).2)))
      (by simp only [Int.natAbs_zero]; omega),
    reduce_points _ 0
      (fun t ht => hint t (List.mem_of_mem_filter ht)
        (Or.inr (of_decide_eq_true (List.mem_filter.mp ht).2)))
      (by simp only [Int.natAbs_zero]; omega),
    Int.zero_add, Int.zero_add]
  exact sub_ofInt _ _ (by omega) (by omega) (by omega)

/-- The magnitude of the exact balance is at most the sum of the magnitudes of the
earned and redeemed amounts. -/
theorem specBalance_natAbs_le (T : List Transaction) :
    (specBalance T).natAbs ≤
      ((T.filter (fun t => decide (t.type = some "earned" ∨
        t.type = some "redeemed"))).map (fun t => t.amount.natAbs)).sum := by
  have hsplit := sum_natAbs_split T
  have he := natAbs_sum_le (T.filter (fun t => decide (t.type = some "earned")))
  have hr := natAbs_sum_le (T.filter (fun t => decide (t.type = some "redeemed")))
  have hsub := Int.natAbs_sub_le
    (((T.filter (fun t => decide (t.type = some "earned"))).map Transaction.amount).sum)
    (((T.filter (fun t => decide (t.type = some "redeemed"))).map Transaction.amount).sum)
  unfold specBalance
  omega

/-- Claim C1, amended. For every list of transactions whose earned and redeemed
point amounts are integers (or missing or null) with magnitudes summing to at
most 2^53 - 1, the balance `totalPoints` computed by `Layout` is exactly the sum
of the points of the earned transactions minus the sum of the points of the
redeemed ones; earned 50, earned 30, redeemed 20 give 60. -/
theorem totalPoints_eq_specBalance_of_safe :
    (∀ T : List Transaction,
      (∀ t ∈ T, t.type = some "earned" ∨ t.type = some "redeemed" →
        t.points = .undefined ∨ t.points = .null ∨
          t.points = .number (JSNumber.ofInt t.amount)) →
      ((T.filter (fun t => decide (t.type = some "earned" ∨
          t.type = some "redeemed"))).map (fun t => t.amount.natAbs)).sum ≤
        9007199254740991 →
      totalPoints T = JSNumber.ofInt (specBalance T) ∧
      (totalPoints T).toInt = specBalance T) ∧
    totalPoints [earned 50, earned 30, redeemed 20] = JSNumber.ofInt 60 := by
  constructor
  · intro T hint hsafe
    have h := totalPoints_safe T hint hsafe
    refine ⟨h, ?_⟩
    rw [h]
    have hb := specBalance_natAbs_le T
    exact toInt_ofInt _ (by omega)
  · have h := totalPoints_safe [earned 50, earned 30, redeemed 20] (by decide) (by decide)
    have hs : specBalance [earned 50, earned 30, redeemed 20] = 60 := by decide
    rw [hs] at h
    exact h

/-- Witness of claim C1: a list with a negative amount, a missing amount and a
transaction of another type with a huge amount. -/
theorem totalPoints_eq_specBalance_of_safe_witness :
    totalPoints
      [earned 70, redeemed (-5),
        { user_id := "u", type := some "earned", points := .undefined },
        { user_id := "u", type := some "bonus",
          points := .number (JSNumber.ofInt 9007199254740993) }] = JSNumber.ofInt 75 :=
  (totalPoints_eq_specBalance_of_safe.1
    [earned 70, redeemed (-5),
      { user_id := "u", type := some "earned", points := .undefined },
      { user_id := "u", type := some "bonus",
        points := .number (JSNumber.ofInt 9007199254740993) }]
    (by decide) (by decide)).1

/-- Counterexample to claim C1 as stated. With earned 2^53 and earned 1 the source
computes 9007199254740992, the exact sum is 9007199254740993; with a third
earned 1 the source still computes 9007199254740992 although the exact sum
9007199254740994 is itself a number. -/
theorem totalPoints_ne_specBalance_unsafe :
    totalPoints [earned 9007199254740992, earned 1] = JSNumber.ofInt 9007199254740992 ∧
    (totalPoints [earned 9007199254740992, earned 1]).toInt = 9007199254740992 ∧
    specBalance [earned 9007199254740992, earned 1] = 9007199254740993 ∧
    ((totalPoints [earned 9007199254740992, earned 1]).toInt ==
      specBalance [earned 9007199254740992, earned 1]) = false ∧
    totalPoints [earned 9007199254740992, earned 1, earned 1] =
      JSNumber.ofInt 9007199254740992 ∧
    specBalance [earned 9007199254740992, earned 1, earned 1] = 9007199254740994 ∧
    (JSNumber.ofInt 9007199254740994).toInt = 9007199254740994 := by
  set_option maxRecDepth 1000000 in
  set_option exponentiation.threshold 3000 in
  decide

/-- An accumulator that is not `-0` stays so under the `reduce` of the source. -/
theorem foldl_ne_negZero (l : List Transaction) (acc : JSNumber)
    (h : acc ≠ JSNumber.negZero) :
    l.foldl (fun sum t => sum.add t.points.orZero) acc ≠ JSNumber.negZero := by
  induction l generalizing acc with
  | nil => exact h
  | cons t ts ih =>
    rw [List.foldl_cons]
    exact ih _ (fun hc => h (add_eq_negZero _ _ hc))

/-- A transaction that fails the type test, or whose summand is `0`, can be
dropped from the filtered `reduce`. -/
theorem foldl_filter_insert (p : Transaction → Bool) (A B : List Transaction)
    (t : Transaction) (h : p t = false ∨ t.points.orZero = JSNumber.zero) :
    ((A ++ t :: B).filter p).foldl (fun sum t => sum.add t.points.orZero) JSNumber.zero =
      ((A ++ B).filter p).foldl (fun sum t => sum.add t.points.orZero) JSNumber.zero := by
  rw [List.filter_append, List.filter_append, List.filter_cons]
  by_cases hp : p t = true
  · have hz : t.points.orZero = JSNumber.zero := by
      rcases h with h | h
      · rw [hp] at h; cases h
      · exact h
    rw [if_pos hp, List.foldl_append, List.foldl_append, List.foldl_cons, hz,
      add_zero _ (foldl_ne_negZero _ _ (by decide))]
  · rw [if_neg hp]

/-- Claim C10. A transaction whose type is neither earned nor redeemed, or whose
points field is missing, null or 0, contributes nothing: inserted at any
position of any list it leaves `totalPoints` unchanged. -/
theorem totalPoints_insert_neutral (T : List Transaction) (t : Transaction) (i : Nat)
    (h : (t.type ≠ some "earned" ∧ t.type ≠ some "redeemed") ∨
      t.points = .undefined ∨ t.points = .null ∨ t.points = .number JSNumber.zero) :
    totalPoints (T.take i ++ t :: T.drop i) = totalPoints T := by
  have hz : (t.type ≠ some "earned" ∧ t.type ≠ some "redeemed") ∨
      t.points.orZero = JSNumber.zero := by
    rcases h with h | h | h | h
    · exact Or.inl h
    · right; rw [h]; rfl
    · right; rw [h]; rfl
    · right; rw [h]; rfl
  have h1 : (t.type == some "earned") = false ∨ t.points.orZero = JSNumber.zero := by
    rcases hz with ⟨h1, _⟩ | hz
    · left; simpa using h1
    · exact Or.inr hz
  have h2 : (t.type == some "redeemed") = false ∨ t.points.orZero = JSNumber.zero := by
    rcases hz with ⟨_, h2⟩ | hz
    · left; simpa using h2
    · exact Or.inr hz
  have hT : totalPoints T = totalPoints (T.take i ++ T.drop i) := by
    rw [List.take_append_drop]
  rw [hT]
  unfold totalPoints
  rw [foldl_filter_insert (fun t => t.type == some "earned") _ _ t h1,
    foldl_filter_insert (fun t => t.type == some "redeemed") _ _ t h2]

/-- Witness of claim C10: a transaction of type `bonus` inserted in the middle of
a list. -/
theorem totalPoints_insert_neutral_witness :
    totalPoints
      (([earned 50, redeemed 20] : List Transaction).take 1 ++
        { user_id := "u", type := some "bonus", points := .number (JSNumber.ofInt 7) } ::
        ([earned 50, redeemed 20] : List Transaction).drop 1) =
      totalPoints [earned 50, redeemed 20] :=
  totalPoints_insert_neutral _ _ 1 (Or.inl ⟨by decide, by decide⟩)

/-! ## Notification badge: proofs -/

/-- Claim C2. For every loaded unread-notification list the badge is rendered iff
the list is non-empty, and a rendered badge shows the length of the list; three
unread records show "3" and no unread record shows no badge. -/
theorem notificationBadge_spec (N : List Notification) :
    ((notificationBadge N).isSome = true ↔ N ≠ []) ∧
    (∀ k, notificationBadge N = some k → k = N.length) ∧
    (N ≠ [] → badgeText N = some (toString N.length)) ∧
    (∀ a b c : Notification, badgeText [a, b, c] = some "3") ∧
    badgeText [] = none := by
  refine ⟨?_, ?_, ?_, ?_, ?_⟩
  · cases N with
    | nil => simp [notificationBadge]
    | cons a l => simp [notificationBadge]
  · intro k hk
    unfold notificationBadge at hk
    split at hk
    · exact (Option.some.inj hk).symm
    · cases hk
  · intro hN
    cases N with
    | nil => exact absurd rfl hN
    | cons a l => simp [badgeText, notificationBadge]
  · intro a b c
    simp [badgeText, notificationBadge]
    decide
  · rfl

/-- Witness of claim C2 on a list of two unread notifications. -/
theorem notificationBadge_spec_witness :
    badgeText
      [ { id := "n1", user_id := "u", title := "a", message := "m", is_read := false },
        { id := "n2", user_id := "u", title := "b", message := "m", is_read := false } ] =
      some "2" :=
  (notificationBadge_spec
    [ { id := "n1", user_id := "u", title := "a", message := "m", is_read := false },
      { id := "n2", user_id := "u", title := "b", message := "m", is_read := false } ]).2.2.1
    (by decide)

/-! ## Navigation highlighting: proofs -/

/-- A rendered link is highlighted exactly when `isActive` held for its entry. -/
theorem highlighted_iff_isActive (p : String) (e : NavItem) :
    (renderNavLink p e).highlighted = isActive p e := by
  unfold renderNavLink NavLink.highlighted
  cases h : isActive p e with
  | true => simp
  | false =>
    simp only [Bool.false_eq_true, if_false]
    decide

/-- The route test is string equality. -/
theorem isActive_iff (p : String) (e : NavItem) : isActive p e = true ↔ p = e.url := by
  simp [isActive]

/-- Claim C3. Highlighting is a function of the path and of `navigationItems` with
exact match only: an entry is rendered active iff the path is string-equal to
its url, a path that has the url as a proper initial segment does not activate
it, and at the url of Home exactly the Home entry is active, provided
`createPageUrl` gives the six pages different urls. -/
theorem nav_active_exact_match (createPageUrl : String → String) (p : String) :
    renderNav createPageUrl p = (navigationItems createPageUrl).map (renderNavLink p) ∧
    (∀ e ∈ navigationItems createPageUrl,
      ((renderNavLink p e).highlighted = true ↔ p = e.url)) ∧
    (∀ e ∈ navigationItems createPageUrl, ∀ rest : String,
      rest ≠ "" → p = e.url ++ rest → (renderNavLink p e).highlighted = false) ∧
    ((pageNames.map createPageUrl).Nodup →
      ((renderNav createPageUrl (createPageUrl "Home")).filter NavLink.highlighted).map
        NavLink.label = ["Home"]) := by
  refine ⟨rfl, ?_, ?_, ?_⟩
  · intro e _
    rw [highlighted_iff_isActive, isActive_iff]
  · intro e _ rest hrest hp
    rw [highlighted_iff_isActive]
    cases h : isActive p e with
    | false => rfl
    | true =>
      exfalso
      rw [isActive_iff] at h
      rw [h] at hp
      apply hrest
      have hd := congrArg String.data hp
      rw [String.data_append] at hd
      have hnil : rest.data = [] := by simpa using hd
      exact String.ext hnil
  · intro hnd
    simp only [pageNames, List.map_cons, List.map_nil, List.nodup_cons, List.mem_cons,
      List.mem_singleton, not_or, List.not_mem_nil, not_false_eq_true, List.nodup_nil,
      and_true] at hnd
    obtain ⟨⟨h1, h2, h3, h4, h5⟩, _⟩ := hnd
    have hf : (renderNav createPageUrl (createPageUrl "Home")).filter NavLink.highlighted =
        ((navigationItems createPageUrl).filter (isActive (createPageUrl "Home"))).map
          (renderNavLink (createPageUrl "Home")) := by
      unfold renderNav
      rw [List.filter_map]
      congr 1
      apply List.filter_congr
      intro e _
      exact highlighted_iff_isActive _ e
    rw [hf]
    simp [navigationItems, List.filter_cons, isActive, h1, h2, h3, h4, h5, renderNavLink]

/-- Witness of claim C3 with the url of a page being a slash followed by its name. -/
theorem nav_active_exact_match_witness :
    ((renderNav (fun name => "/" ++ name) "/Home").filter NavLink.highlighted).map
      NavLink.label = ["Home"] :=
  (nav_active_exact_match (fun name => "/" ++ name) "/Home").2.2.2 (by decide)

/-! ## Mobile sidebar: proofs -/

/-- A refetch leaves the sidebar flag alone. -/
theorem refetchNotifications_sidebarOpen (b : Backend) (l : LayoutState) :
    (refetchNotifications b l).sidebarOpen = l.sidebarOpen := by
  unfold refetchNotifications
  cases l.user <;> rfl

/-- The end of a mutation leaves the sidebar flag alone. -/
theorem afterMutation_sidebarOpen (r : MutationRun Backend) (l : LayoutState) :
    (afterMutation r l).sidebarOpen = l.sidebarOpen := by
  unfold afterMutation
  cases r.invalidatedAt with
  | none => rfl
  | some t => exact refetchNotifications_sidebarOpen _ _

/-- On the mounted component the sidebar flag follows `sidebarAfterClick`. -/
theorem step_sidebarOpen (net : Network) (w : World) (t : ClickTarget) :
    (step net w t).layout.sidebarOpen = sidebarAfterClick w.layout.sidebarOpen t := by
  cases t <;> simp [step, afterMutation_sidebarOpen]

/-- Claim C9. The mobile sidebar is a two-state machine over `sidebarOpen`,
initially closed: the menu button opens it; the close button, a backdrop click
and a click on a navigation link of the sidebar close it and are rendered only
while it is open, so a closing click only ever goes from open to closed; no
other click changes the state; open, closed, open again is the open state. -/
theorem sidebar_state_machine :
    initialSidebarOpen = false ∧
    (∀ (d : Nat) (b : Backend), (mount d b).layout.sidebarOpen = false) ∧
    (∀ (net : Network) (w : World) (t : ClickTarget),
      (step net w t).layout.sidebarOpen = sidebarAfterClick w.layout.sidebarOpen t) ∧
    (∀ s : Bool, sidebarAfterClick s .menuButton = true) ∧
    (∀ (s : Bool) (t : ClickTarget), isClosingClick t = true → sidebarAfterClick s t = false) ∧
    (∀ (s : Bool) (N : List Notification) (t : ClickTarget),
      isClosingClick t = true → (isRendered s N t = true ↔ s = true)) ∧
    (∀ (s : Bool) (N : List Notification) (t : ClickTarget),
      isClosingClick t = true → isRendered s N t = true →
        s = true ∧ sidebarAfterClick s t = false) ∧
    (∀ (s : Bool) (t : ClickTarget),
      t ≠ .menuButton → isClosingClick t = false → sidebarAfterClick s t = s) ∧
    (∀ t : ClickTarget, isClosingClick t = true →
      sidebarAfterClick (sidebarAfterClick true t) .menuButton = true) := by
  refine ⟨rfl, ?_, step_sidebarOpen, ?_, ?_, ?_, ?_, ?_, ?_⟩
  · intro d b; rfl
  · intro s; rfl
  · intro s t ht
    cases t <;> simp_all [isClosingClick, sidebarAfterClick, clickHandlers, runHandlers]
  · intro s N t ht
    cases t <;> simp_all [isClosingClick, isRendered]
  · intro s N t ht hr
    cases t <;>
      simp_all [isClosingClick, isRendered, sidebarAfterClick, clickHandlers, runHandlers]
  · intro s t hm ht
    cases t <;> simp_all [isClosingClick, sidebarAfterClick, clickHandlers, runHandlers]
  · intro t _
    rfl

/-- Witness of claim C9: a backdrop click on the open sidebar closes it. -/
theorem sidebar_state_machine_witness :
    sidebarAfterClick true .backdrop = false :=
  sidebar_state_machine.2.2.2.2.1 true .backdrop rfl

/-! ## Promise.all and the bulk mutation: proofs -/

/-- The search finds nothing exactly when nothing was rejected. -/
theorem foldl_earlier_eq_none (ps : List Settled) (best : Option Settled) :
    ps.foldl earlier best = none ↔ best = none ∧ ∀ p ∈ ps, p.outcome = .fulfilled := by
  induction ps generalizing best with
  | nil => simp
  | cons p ps ih =>
    rw [List.foldl_cons, ih]
    cases hp : p.outcome with
    | fulfilled => simp [earlier, hp]
    | rejected reason =>
      cases best with
      | none => simp [earlier, hp]
      | some q =>
        by_cases hlt : p.settledAt < q.settledAt <;> simp [earlier, hp, hlt]

/-- What the search finds is the initial candidate or a rejected element. -/
theorem foldl_earlier_eq_some (ps : List Settled) (best : Option Settled) (r : Settled)
    (h : ps.foldl earlier best = some r) :
    best = some r ∨ (r ∈ ps ∧ ∃ reason, r.outcome = .rejected reason) := by
  induction ps generalizing best with
  | nil => left; simpa using h
  | cons p ps ih =>
    rw [List.foldl_cons] at h
    rcases ih _ h with h1 | ⟨hm, hr⟩
    · cases hp : p.outcome with
      | fulfilled =>
        left
        simpa [earlier, hp] using h1
      | rejected reason =>
        cases best with
        | none =>
          right
          simp only [earlier, hp, Option.some.injEq] at h1
          subst h1
          exact ⟨List.mem_cons_self _ _, reason, hp⟩
        | some q =>
          by_cases hlt : p.settledAt < q.settledAt
          · right
            simp only [earlier, hp, hlt, if_true, Option.some.injEq] at h1
            subst h1
            exact ⟨List.mem_cons_self _ _, reason, hp⟩
          · left
            simpa [earlier, hp, hlt] using h1
    · right
      exact ⟨List.mem_cons_of_mem _ hm, hr⟩

/-- What the search finds settles no later than any rejected element. -/
theorem foldl_earlier_le (ps : List Settled) (best : Option Settled) (r : Settled)
    (h : ps.foldl earlier best = some r) :
    (∀ q, best = some q → r.settledAt ≤ q.settledAt) ∧
    (∀ p ∈ ps, ∀ reason, p.outcome = .rejected reason → r.settledAt ≤ p.settledAt) := by
  induction ps generalizing best with
  | nil =>
    simp only [List.foldl_nil] at h
    subst h
    simp
  | cons p ps ih =>
    rw [List.foldl_cons] at h
    obtain ⟨ih1, ih2⟩ := ih _ h
    cases hp : p.outcome with
    | fulfilled =>
      have he : earlier best p = best := by simp [earlier, hp]
      rw [he] at ih1
      refine ⟨ih1, ?_⟩
      intro x hx reason hxr
      rcases List.mem_cons.mp hx with rfl | hx
      · rw [hp] at hxr; cases hxr
      · exact ih2 x hx reason hxr
    | rejected reason =>
      cases best with
      | none =>
        have he : earlier none p = some p := by simp [earlier, hp]
        rw [he] at ih1
        refine ⟨by simp, ?_⟩
        intro x hx reason2 hxr
        rcases List.mem_cons.mp hx with rfl | hx
        · exact ih1 _ rfl
        · exact ih2 x hx reason2 hxr
      | some q =>
        by_cases hlt : p.settledAt < q.settledAt
        · have he : earlier (some q) p = some p := by simp [earlier, hp, hlt]
          rw [he] at ih1
          have hrp := ih1 _ rfl
          refine ⟨?_, ?_⟩
          · intro q2 hq2
            cases hq2
            omega
          · intro x hx reason2 hxr
            rcases List.mem_cons.mp hx with rfl | hx
            · exact hrp
            · exact ih2 x hx reason2 hxr
        · have he : earlier (some q) p = some q := by simp [earlier, hp, hlt]
          rw [he] at ih1
          have hrq := ih1 _ rfl
          refine ⟨?_, ?_⟩
          · intro q2 hq2
            cases hq2
            exact hrq
          · intro x hx reason2 hxr
            rcases List.mem_cons.mp hx with rfl | hx
            · omega
            · exact ih2 x hx reason2 hxr

/-- The latest settle time bounds every settle time. -/
theorem le_foldl_max (ps : List Settled) (t0 : Nat) :
    t0 ≤ ps.foldl (fun t p => max t p.settledAt) t0 ∧
    ∀ p ∈ ps, p.settledAt ≤ ps.foldl (fun t p => max t p.settledAt) t0 := by
  induction ps generalizing t0 with
  | nil => simp
  | cons a ps ih =>
    rw [List.foldl_cons]
    obtain ⟨h1, h2⟩ := ih (max t0 a.settledAt)
    refine ⟨le_trans (le_max_left _ _) h1, ?_⟩
    intro p hp
    rcases List.mem_cons.mp hp with rfl | hp
    · exact le_trans (le_max_right _ _) h1
    · exact h2 p hp

/-- `Promise.all` fulfils exactly when every input fulfils. -/
theorem promiseAll_fulfilled_iff (ps : List Settled) :
    (promiseAll ps).outcome = .fulfilled ↔ ∀ p ∈ ps, p.outcome = .fulfilled := by
  unfold promiseAll
  cases h : firstRejection ps with
  | none =>
    have hall := ((foldl_earlier_eq_none ps none).mp h).2
    simp only [true_iff]
    exact hall
  | some r =>
    rcases foldl_earlier_eq_some ps none r h with h1 | ⟨hm, reason, hr⟩
    · cases h1
    · simp only
      constructor
      · intro hf; rw [hr] at hf; cases hf
      · intro hall; have := hall r hm; rw [hr] at this; cases this

/-- A fulfilled `Promise.all` settles after every input. -/
theorem promiseAll_fulfilled_time (ps : List Settled)
    (h : (promiseAll ps).outcome = .fulfilled) :
    ∀ p ∈ ps, p.settledAt ≤ (promiseAll ps).settledAt := by
  have hall := (promiseAll_fulfilled_iff ps).mp h
  have hn : firstRejection ps = none := (foldl_earlier_eq_none ps none).mpr ⟨rfl, hall⟩
  unfold promiseAll
  rw [hn]
  exact (le_foldl_max ps 0).2

/-- A rejected `Promise.all` is the earliest rejected input. -/
theorem promiseAll_rejected (ps : List Settled) (reason : String)
    (h : (promiseAll ps).outcome = .rejected reason) :
    promiseAll ps ∈ ps ∧
    ∀ p ∈ ps, ∀ r, p.outcome = .rejected r → (promiseAll ps).settledAt ≤ p.settledAt := by
  unfold promiseAll at h ⊢
  cases hf : firstRejection ps with
  | none => rw [hf] at h; cases h
  | some r =>
    simp only
    rcases foldl_earlier_eq_some ps none r hf with h1 | ⟨hm, _⟩
    · cases h1
    · exact ⟨hm, (foldl_earlier_le ps none r hf).2⟩

/-- Every call issued gets one response. -/
theorem issueAll_length {β : Type} (update : β → UpdateCall → Settled × β) (b : β)
    (cs : List UpdateCall) : (issueAll update b cs).1.length = cs.length := by
  induction cs generalizing b with
  | nil => rfl
  | cons c cs ih => simp [issueAll, ih]

/-- The invalidation runs exactly when the promise of `mutationFn` fulfils. -/
theorem onSuccessAt_isSome (r : Settled) :
    (onSuccessAt r).isSome = true ↔ r.outcome = .fulfilled := by
  unfold onSuccessAt
  cases r.outcome <;> simp

/-- An invalidation happens at the settle time of a fulfilled `mutationFn`. -/
theorem onSuccessAt_eq_some (r : Settled) (t : Nat) (h : onSuccessAt r = some t) :
    r.outcome = .fulfilled ∧ t = r.settledAt := by
  unfold onSuccessAt at h
  cases ho : r.outcome with
  | fulfilled =>
    rw [ho] at h
    exact ⟨rfl, (Option.some.inj h).symm⟩
  | rejected reason =>
    rw [ho] at h
    cases h

/-- Claim C6. Mark-all-read over N loaded notifications: one response per
notification; the `notifications` query is invalidated iff all N update calls
succeed; an invalidation comes only after all N updates have settled; and if
any single update fails, the promise of the mutation rejects with the earliest
failure, no invalidation occurs and the loaded list stays as it was. -/
theorem markAll_invalidates_iff_all_succeed {β : Type}
    (update : β → UpdateCall → Settled × β) (b : β) (notifications : List Notification) :
    (markAllAsReadMutation update b notifications).responses.length = notifications.length ∧
    ((markAllAsReadMutation update b notifications).invalidatedAt.isSome = true ↔
      ∀ p ∈ (markAllAsReadMutation update b notifications).responses,
        p.outcome = .fulfilled) ∧
    (∀ t, (markAllAsReadMutation update b notifications).invalidatedAt = some t →
      ∀ p ∈ (markAllAsReadMutation update b notifications).responses, p.settledAt ≤ t) ∧
    (∀ p ∈ (markAllAsReadMutation update b notifications).responses,
      ∀ reason, p.outcome = .rejected reason →
        (markAllAsReadMutation update b notifications).invalidatedAt = none ∧
        (markAllAsReadMutation update b notifications).result ∈
          (markAllAsReadMutation update b notifications).responses ∧
        (∃ first, (markAllAsReadMutation update b notifications).result.outcome =
          .rejected first) ∧
        (markAllAsReadMutation update b notifications).result.settledAt ≤ p.settledAt) ∧
    (∀ (net : Network) (bk : Backend) (l : LayoutState),
      (markAllAsReadMutation (Backend.respond net) bk notifications).invalidatedAt = none →
        afterMutation (markAllAsReadMutation (Backend.respond net) bk notifications) l = l) := by
  refine ⟨?_, ?_, ?_, ?_, ?_⟩
  · simp [markAllAsReadMutation, issueAll_length, markAllAsReadCalls]
  · simp only [markAllAsReadMutation]
    rw [onSuccessAt_isSome, promiseAll_fulfilled_iff]
  · intro t ht p hp
    simp only [markAllAsReadMutation] at ht hp
    obtain ⟨hf, rfl⟩ := onSuccessAt_eq_some _ t ht
    exact promiseAll_fulfilled_time _ hf p hp
  · intro p hp reason hr
    simp only [markAllAsReadMutation] at hp ⊢
    cases ho : (promiseAll (issueAll update b (markAllAsReadCalls notifications)).1).outcome with
    | fulfilled =>
      have := (promiseAll_fulfilled_iff _).mp ho p hp
      rw [hr] at this
      cases this
    | rejected first =>
      obtain ⟨hm, ht⟩ := promiseAll_rejected _ first ho
      refine ⟨?_, hm, ⟨first, rfl⟩, ht p hp reason hr⟩
      simp [onSuccessAt, ho]
  · intro net bk l h
    simp [afterMutation, h]

/-- Witness of claim C6: two loaded notifications, the call for the second one
does not get through, so nothing is invalidated. -/
theorem markAll_invalidates_iff_all_succeed_witness :
    (markAllAsReadMutation
      (Backend.respond { latency := fun _ => 1, delivers := fun c => c.id == "n1" })
      { session := none, transactions := [],
        notifications :=
          [ { id := "n1", user_id := "u", title := "a", message := "m", is_read := false },
            { id := "n2", user_id := "u", title := "b", message := "m", is_read := false } ] }
      [ { id := "n1", user_id := "u", title := "a", message := "m", is_read := false },
        { id := "n2", user_id := "u", title := "b", message := "m", is_read := false } ]
      ).invalidatedAt = none :=
  ((markAll_invalidates_iff_all_succeed _ _ _).2.2.2.1
    { settledAt := 1, outcome := .rejected "network error" } (by decide) "network error"
    rfl).1

/-! ## The backend under update calls: proofs -/

/-- The notification records after an update, whether or not the id exists. -/
theorem updateNotification_notifications (b : Backend) (c : UpdateCall) :
    (b.updateNotification c).2.notifications =
      b.notifications.map (fun n => if n.id == c.id then n.patch c.payload else n) := by
  unfold Backend.updateNotification
  split
  · rfl
  · rename_i h
    simp only [List.any_eq_true, not_exists, not_and, Bool.not_eq_true] at h
    symm
    conv_rhs => rw [← List.map_id b.notifications]
    apply List.map_congr_left
    intro n hn
    simp [h n hn]

/-- An update fulfils exactly when the id exists. -/
theorem updateNotification_outcome (b : Backend) (c : UpdateCall) :
    (b.updateNotification c).1 = .fulfilled ↔ ∃ n ∈ b.notifications, n.id = c.id := by
  unfold Backend.updateNotification
  split
  · rename_i h
    simp only [List.any_eq_true, beq_iff_eq] at h
    simp [h]
  · rename_i h
    simp only [List.any_eq_true, beq_iff_eq] at h
    simp [h]

/-- An update touches neither the transactions nor the session. -/
theorem updateNotification_frame (b : Backend) (c : UpdateCall) :
    (b.updateNotification c).2.transactions = b.transactions ∧
    (b.updateNotification c).2.session = b.session := by
  unfold Backend.updateNotification
  split <;> exact ⟨rfl, rfl⟩

/-- A fulfilled response means the call got through and the id exists. -/
theorem respond_fulfilled (net : Network) (b : Backend) (c : UpdateCall)
    (h : (Backend.respond net b c).1.outcome = .fulfilled) :
    net.delivers c = true ∧ (Backend.respond net b c).2 = (b.updateNotification c).2 := by
  unfold Backend.respond at h ⊢
  cases hd : net.delivers c with
  | true => simp
  | false => simp [hd] at h

/-- The notification records after a remote update call. -/
theorem respond_notifications (net : Network) (b : Backend) (c : UpdateCall) :
    (Backend.respond net b c).2.notifications =
      if net.delivers c then
        b.notifications.map (fun n => if n.id == c.id then n.patch c.payload else n)
      else b.notifications := by
  unfold Backend.respond
  cases hd : net.delivers c with
  | true => simp [updateNotification_notifications]
  | false => simp

/-- A remote update call touches neither the transactions nor the session. -/
theorem respond_frame (net : Network) (b : Backend) (c : UpdateCall) :
    (Backend.respond net b c).2.transactions = b.transactions ∧
    (Backend.respond net b c).2.session = b.session := by
  unfold Backend.respond
  cases hd : net.delivers c with
  | true => simpa using updateNotification_frame b c
  | false => simp

/-- The service state after a list of calls is the fold of the single calls. -/
theorem issueAll_backend {β : Type} (update : β → UpdateCall → Settled × β) (b : β)
    (cs : List UpdateCall) :
    (issueAll update b cs).2 = cs.foldl (fun st c => (update st c).2) b := by
  induction cs generalizing b with
  | nil => rfl
  | cons c cs ih => simp [issueAll, ih]

/-- After a bulk run in which every call fulfilled, a record is marked read when
its id was among the calls and is untouched otherwise. -/
theorem issueAll_markRead (net : Network) (cs : List UpdateCall) (b : Backend)
    (hp : ∀ c ∈ cs, c.payload = { is_read := some true })
    (hok : ∀ p ∈ (issueAll (Backend.respond net) b cs).1, p.outcome = .fulfilled) :
    (issueAll (Backend.respond net) b cs).2.notifications =
      b.notifications.map (fun n =>
        if n.id ∈ cs.map UpdateCall.id then { n with is_read := true } else n) := by
  induction cs generalizing b with
  | nil => simp [issueAll]
  | cons c cs ih =>
    simp only [issueAll] at hok ⊢
    have h1 := hok _ (List.mem_cons_self _ _)
    obtain ⟨hd, _⟩ := respond_fulfilled net b c h1
    have hrest := ih (Backend.respond net b c).2
      (fun x hx => hp x (List.mem_cons_of_mem _ hx))
      (fun x hx => hok x (List.mem_cons_of_mem _ hx))
    rw [hrest, respond_notifications, hd]
    simp only [if_true, List.map_map]
    apply List.map_congr_left
    intro n _
    have hpc := hp c (List.mem_cons_self _ _)
    by_cases hc : n.id = c.id
    · simp [hc, hpc, Notification.patch]
    · have hne : (n.id == c.id) = false := by simpa using hc
      simp only [Function.comp_apply, hne, Bool.false_eq_true, if_false, List.map_cons,
        List.mem_cons, hc, false_or]

/-- The ids of the calls of mark-all-read are the ids of the loaded list. -/
theorem markAllAsReadCalls_ids (N : List Notification) :
    (markAllAsReadCalls N).map UpdateCall.id = N.map Notification.id := by
  simp [markAllAsReadCalls, Function.comp_def]

/-- Every call of mark-all-read carries the payload that sets the read flag. -/
theorem markAllAsReadCalls_payload (N : List Notification) :
    ∀ c ∈ markAllAsReadCalls N, c.payload = { is_read := some true } := by
  intro c hc
  simp only [markAllAsReadCalls, List.mem_map] at hc
  obtain ⟨n, _, rfl⟩ := hc
  rfl

/-- After a bulk run in which every update succeeded, the unread query is empty,
provided the loaded list covered the unread notifications of the backend. -/
theorem markAll_refetch_nil (net : Network) (b : Backend) (user : Option User)
    (N : List Notification)
    (hcover : ∀ n ∈ notificationsQueryFn b user, n.id ∈ N.map Notification.id)
    (hok : ∀ p ∈ (markAllAsReadMutation (Backend.respond net) b N).responses,
      p.outcome = .fulfilled) :
    notificationsQueryFn (markAllAsReadMutation (Backend.respond net) b N).backend user = [] := by
  simp only [markAllAsReadMutation] at hok ⊢
  have hst := issueAll_markRead net (markAllAsReadCalls N) b (markAllAsReadCalls_payload N) hok
  rw [markAllAsReadCalls_ids] at hst
  unfold notificationsQueryFn Backend.filterNotifications
  rw [hst, List.filter_eq_nil_iff]
  intro x hx
  obtain ⟨m, hm, rfl⟩ := List.mem_map.mp hx
  by_cases hid : m.id ∈ N.map Notification.id
  · simp [hid]
  · simp only [hid, if_false]
    intro hpred
    apply hid
    apply hcover m
    unfold notificationsQueryFn Backend.filterNotifications
    exact List.mem_filter.mpr ⟨hm, hpred⟩

/-! ## Mark one as read: proofs -/

/-- The records after a delivered mark-read call for `id`. -/
theorem markAsRead_notifications (net : Network) (b : Backend) (id : String) :
    (markAsReadMutation (Backend.respond net) b id).backend.notifications =
      if net.delivers (markAsReadCall id) then
        b.notifications.map (fun n => if n.id == id then { n with is_read := true } else n)
      else b.notifications := by
  simp only [markAsReadMutation, respond_notifications]
  rfl

/-- Marking read is idempotent on the records. -/
theorem markRead_map_idem (ns : List Notification) (id : String) :
    (ns.map (fun n => if n.id == id then { n with is_read := true } else n)).map
      (fun n => if n.id == id then { n with is_read := true } else n) =
    ns.map (fun n => if n.id == id then { n with is_read := true } else n) := by
  rw [List.map_map]
  apply List.map_congr_left
  intro n _
  by_cases h : n.id = id <;> simp [h]

/-- After a delivered mark-read call no unread record carries the id. -/
theorem markAsRead_excludes (net : Network) (b : Backend) (user : Option User) (id : String)
    (hd : net.delivers (markAsReadCall id) = true) :
    ∀ n ∈ notificationsQueryFn (markAsReadMutation (Backend.respond net) b id).backend user,
      n.id ≠ id := by
  intro x hx
  unfold notificationsQueryFn Backend.filterNotifications at hx
  rw [markAsRead_notifications, hd] at hx
  simp only [if_true] at hx
  obtain ⟨hmem, hpred⟩ := List.mem_filter.mp hx
  obtain ⟨m, _, rfl⟩ := List.mem_map.mp hmem
  by_cases h : m.id = id
  · simp [h] at hpred
  · simp [h]

/-- An invalidation after mark-one-read means the call got through. -/
theorem markAsRead_invalidated (net : Network) (b : Backend) (id : String)
    (h : (markAsReadMutation (Backend.respond net) b id).invalidatedAt.isSome = true) :
    net.delivers (markAsReadCall id) = true := by
  simp only [markAsReadMutation] at h
  rw [onSuccessAt_isSome] at h
  exact (respond_fulfilled net b _ h).1

/-- Claim C5. For every backend state and notification id, mark-one-read issues the
single update that sets `is_read`, and the refetch of the unread query that
follows it (the one its `onSuccess` triggers, or any refetch after a call that
reached the backend, whether or not the id exists) yields a list without the id;
the operation is idempotent:
applied twice it yields the same refetched list as applied once, and applied
again to an id already marked read it changes nothing. -/
theorem markOne_refetch_excludes_id (net : Network) (b : Backend) (user : Option User)
    (id : String) :
    (markAsReadMutation (Backend.respond net) b id).calls =
      [{ id := id, payload := { is_read := some true } }] ∧
    ((markAsReadMutation (Backend.respond net) b id).invalidatedAt.isSome = true →
      ∀ n ∈ notificationsQueryFn (markAsReadMutation (Backend.respond net) b id).backend user,
        n.id ≠ id) ∧
    (net.delivers (markAsReadCall id) = true →
      ∀ n ∈ notificationsQueryFn (markAsReadMutation (Backend.respond net) b id).backend user,
        n.id ≠ id) ∧
    notificationsQueryFn
      (markAsReadMutation (Backend.respond net)
        (markAsReadMutation (Backend.respond net) b id).backend id).backend user =
      notificationsQueryFn (markAsReadMutation (Backend.respond net) b id).backend user ∧
    (∀ net2 : Network, net.delivers (markAsReadCall id) = true →
      notificationsQueryFn
        (markAsReadMutation (Backend.respond net2)
          (markAsReadMutation (Backend.respond net) b id).backend id).backend user =
        notificationsQueryFn (markAsReadMutation (Backend.respond net) b id).backend user) ∧
    (∀ (w : World) (notif : Notification) (u : User),
      w.backend = b → notif.id = id → w.layout.user = some u →
      (handleNotificationClick (Backend.respond net) b notif).invalidatedAt.isSome = true →
      ∃ list, (step net w (.notificationItem notif)).layout.notifications = some list ∧
        ∀ n ∈ list, n.id ≠ id) ∧
    (∀ n ∈ notificationsQueryFn (b.updateNotification (markAsReadCall id)).2 user,
      n.id ≠ id) := by
  refine ⟨rfl, ?_, markAsRead_excludes net b user id, ?_, ?_, ?_, ?_⟩
  rotate_right
  · exact markAsRead_excludes { latency := fun _ => 0, delivers := fun _ => true } b user id rfl
  · intro h
    exact markAsRead_excludes net b user id (markAsRead_invalidated net b id h)
  · unfold notificationsQueryFn Backend.filterNotifications
    rw [markAsRead_notifications net (markAsReadMutation (Backend.respond net) b id).backend,
      markAsRead_notifications net b]
    cases hd : net.delivers (markAsReadCall id) with
    | true => simp only [if_true, markRead_map_idem]
    | false => simp
  · intro net2 hd
    unfold notificationsQueryFn Backend.filterNotifications
    rw [markAsRead_notifications net2 (markAsReadMutation (Backend.respond net) b id).backend,
      markAsRead_notifications net b, hd]
    cases hd2 : net2.delivers (markAsReadCall id) with
    | true => simp only [if_true, markRead_map_idem]
    | false => simp
  · intro w notif u hb hid hu hinv
    subst hb hid
    obtain ⟨t, ht⟩ := Option.isSome_iff_exists.mp hinv
    refine ⟨notificationsQueryFn
      (markAsReadMutation (Backend.respond net) w.backend notif.id).backend (some u), ?_, ?_⟩
    · simp only [handleNotificationClick] at ht
      simp only [step, handleNotificationClick, afterMutation, ht, refetchNotifications, hu]
    · exact markAsRead_excludes net w.backend (some u) notif.id
        (markAsRead_invalidated net w.backend notif.id hinv)

/-- Witness of claim C5: after a delivered mark-read of `n1`, a second call that
does not get through leaves the refetched list as it was. -/
theorem markOne_refetch_excludes_id_witness :
    notificationsQueryFn
      (markAsReadMutation
        (Backend.respond { latency := fun _ => 2, delivers := fun _ => false })
        (markAsReadMutation
          (Backend.respond { latency := fun _ => 1, delivers := fun _ => true })
          { session := some { full_name := "U", email := "u" }, transactions := [],
            notifications :=
              [ { id := "n1", user_id := "u", title := "a", message := "m", is_read := false },
                { id := "n2", user_id := "u", title := "b", message := "m", is_read := false } ] }
          "n1").backend "n1").backend (some { full_name := "U", email := "u" }) =
    notificationsQueryFn
      (markAsReadMutation
        (Backend.respond { latency := fun _ => 1, delivers := fun _ => true })
        { session := some { full_name := "U", email := "u" }, transactions := [],
          notifications :=
            [ { id := "n1", user_id := "u", title := "a", message := "m", is_read := false },
              { id := "n2", user_id := "u", title := "b", message := "m", is_read := false } ] }
        "n1").backend (some { full_name := "U", email := "u" }) :=
  (markOne_refetch_excludes_id _ _ _ _).2.2.2.2.1
    { latency := fun _ => 2, delivers := fun _ => false } rfl

/-! ## Frame: what the component leaves alone -/

/-- Blanking the read flag forgets an update of the read flag. -/
theorem withoutReadFlag_patch (n : Notification) :
    (n.patch { is_read := some true }).withoutReadFlag = n.withoutReadFlag := rfl

/-- A remote update that only sets the read flag keeps the transactions and, up
to the read flag, the notifications. -/
theorem respond_markRead_frame (net : Network) (b : Backend) (id : String) :
    (Backend.respond net b { id := id, payload := { is_read := some true } }).2.transactions =
      b.transactions ∧
    (Backend.respond net b { id := id, payload := { is_read := some true } }).2.notifications.map
      Notification.withoutReadFlag = b.notifications.map Notification.withoutReadFlag := by
  refine ⟨(respond_frame net b _).1, ?_⟩
  rw [respond_notifications]
  split
  · rw [List.map_map]
    apply List.map_congr_left
    intro n _
    by_cases h : n.id = id
    · simp [h, withoutReadFlag_patch]
    · simp [h]
  · rfl

/-- The writes of a click are a logout or updates that set the read flag. -/
theorem writesOfClick_shape (l : LayoutState) (t : ClickTarget) :
    ∀ wr ∈ writesOfClick l t,
      wr = .logout ∨
      ∃ id, wr = .notificationUpdate { id := id, payload := { is_read := some true } } := by
  intro wr hwr
  cases t with
  | notificationItem notif =>
    simp only [writesOfClick, List.mem_singleton] at hwr
    exact Or.inr ⟨notif.id, hwr⟩
  | markAllReadButton =>
    simp only [writesOfClick, markAllAsReadCalls, List.map_map, List.mem_map] at hwr
    obtain ⟨n, _, rfl⟩ := hwr
    exact Or.inr ⟨n.id, rfl⟩
  | signOutItem =>
    simp only [writesOfClick, List.mem_singleton] at hwr
    exact Or.inl hwr
  | menuButton => simp [writesOfClick] at hwr
  | backdrop => simp [writesOfClick] at hwr
  | mobileAside => simp [writesOfClick] at hwr
  | closeButton => simp [writesOfClick] at hwr
  | mobileNavLink item => simp [writesOfClick] at hwr
  | desktopNavLink item => simp [writesOfClick] at hwr
  | profileLink url => simp [writesOfClick] at hwr

/-- The backend after a click is the backend after the writes of the click. -/
theorem step_backend (net : Network) (w : World) (t : ClickTarget) :
    (step net w t).backend = (writesOfClick w.layout t).foldl (applyWrite net) w.backend := by
  cases t with
  | markAllReadButton =>
    simp only [step, markAllAsReadMutation, writesOfClick, issueAll_backend, List.foldl_map]
    rfl
  | notificationItem notif => rfl
  | signOutItem => rfl
  | menuButton => rfl
  | backdrop => rfl
  | mobileAside => rfl
  | closeButton => rfl
  | mobileNavLink item => rfl
  | desktopNavLink item => rfl
  | profileLink url => rfl

/-- A list of writes, each a logout or a read-flag update, keeps the frame. -/
theorem applyWrites_frame (net : Network) (ws : List BackendWrite) (b : Backend)
    (h : ∀ wr ∈ ws, wr = .logout ∨
      ∃ id, wr = .notificationUpdate { id := id, payload := { is_read := some true } }) :
    (ws.foldl (applyWrite net) b).transactions = b.transactions ∧
    (ws.foldl (applyWrite net) b).notifications.map Notification.withoutReadFlag =
      b.notifications.map Notification.withoutReadFlag := by
  induction ws generalizing b with
  | nil => exact ⟨rfl, rfl⟩
  | cons wr ws ih =>
    rw [List.foldl_cons]
    obtain ⟨h1, h2⟩ := ih (applyWrite net b wr) (fun x hx => h x (List.mem_cons_of_mem _ hx))
    rw [h1, h2]
    rcases h wr (List.mem_cons_self _ _) with rfl | ⟨id, rfl⟩
    · exact ⟨rfl, rfl⟩
    · exact respond_markRead_frame net b id

/-- One click keeps the frame. -/
theorem step_frame (net : Network) (w : World) (t : ClickTarget) :
    (step net w t).backend.transactions = w.backend.transactions ∧
    (step net w t).backend.notifications.map Notification.withoutReadFlag =
      w.backend.notifications.map Notification.withoutReadFlag := by
  rw [step_backend]
  exact applyWrites_frame net _ _ (writesOfClick_shape _ _)

/-- Any sequence of clicks keeps the frame. -/
theorem run_frame (events : List (Network × ClickTarget)) (w : World) :
    (run w events).backend.transactions = w.backend.transactions ∧
    (run w events).backend.notifications.map Notification.withoutReadFlag =
      w.backend.notifications.map Notification.withoutReadFlag := by
  induction events generalizing w with
  | nil => exact ⟨rfl, rfl⟩
  | cons e es ih =>
    have h := ih (step e.1 w e.2)
    have hs := step_frame e.1 w e.2
    simp only [run, List.foldl_cons] at h ⊢
    exact ⟨h.1.trans hs.1, h.2.trans hs.2⟩

/-- Claim C8. No operation of `Layout` creates or deletes an entity and only the
read flag of notifications is mutated: every write a click sends is a logout
or `Notification.update` with payload exactly `is_read: true`, the backend
after a click is the backend after these writes, mounting writes nothing, and
after every sequence of clicks every transaction record, the notification ids
and every notification field other than the read flag are unchanged. -/
theorem layout_only_marks_read (w : World) (events : List (Network × ClickTarget)) :
    (∀ (l : LayoutState) (t : ClickTarget), ∀ wr ∈ writesOfClick l t,
      wr = .logout ∨
      ∃ id, wr = .notificationUpdate { id := id, payload := { is_read := some true } }) ∧
    (∀ (net : Network) (v : World) (t : ClickTarget),
      (step net v t).backend = (writesOfClick v.layout t).foldl (applyWrite net) v.backend) ∧
    (∀ (d : Nat) (b : Backend), (mount d b).backend = b) ∧
    (run w events).backend.transactions = w.backend.transactions ∧
    (run w events).backend.notifications.map Notification.id =
      w.backend.notifications.map Notification.id ∧
    (run w events).backend.notifications.map Notification.withoutReadFlag =
      w.backend.notifications.map Notification.withoutReadFlag := by
  obtain ⟨h1, h2⟩ := run_frame events w
  refine ⟨writesOfClick_shape, step_backend, fun _ _ => rfl, h1, ?_, h2⟩
  have hid : ∀ ns : List Notification,
      ns.map Notification.id = (ns.map Notification.withoutReadFlag).map Notification.id := by
    intro ns
    rw [List.map_map]
    rfl
  rw [hid, hid w.backend.notifications, h2]

/-- Witness of claim C8: the write of a click on a notification is the read-flag
update, and a click sequence leaves the transactions of a sample backend alone. -/
theorem layout_only_marks_read_witness :
    (BackendWrite.notificationUpdate (markAsReadCall "n1") = .logout ∨
      ∃ id, BackendWrite.notificationUpdate (markAsReadCall "n1") =
        .notificationUpdate { id := id, payload := { is_read := some true } }) ∧
    (run
      (mount 3
        { session := some { full_name := "U", email := "u" },
          transactions := [{ user_id := "u", type := some "earned", points := .number (JSNumber.ofInt 5) }],
          notifications :=
            [{ id := "n1", user_id := "u", title := "a", message := "m", is_read := false }] })
      [({ latency := fun _ => 1, delivers := fun _ => true }, .menuButton),
       ({ latency := fun _ => 1, delivers := fun _ => true }, .markAllReadButton),
       ({ latency := fun _ => 1, delivers := fun _ => false }, .signOutItem)]
      ).backend.transactions =
      [{ user_id := "u", type := some "earned", points := .number (JSNumber.ofInt 5) }] :=
  ⟨(layout_only_marks_read
      (mount 3 { session := none, transactions := [], notifications := [] }) []).1
      { sidebarOpen := false, user := none, transactions := none,
        notifications := none }
      (.notificationItem
        { id := "n1", user_id := "u", title := "a", message := "m", is_read := false })
      _ (List.mem_singleton.mpr rfl),
    (layout_only_marks_read _ _).2.2.2.1⟩

/-! ## Queries: proofs -/

/-- A fetch whose first invocation fails and that has no retry invokes its
function once and holds no data. -/
theorem runQuery_no_retry_fail {α : Type} (queryFn : Nat → Option α)
    (h : queryFn 0 = none) :
    runQuery queryFn 0 0 = { data := none, fetchCount := 1 } := by
  simp [runQuery, h]

/-- A fetch invokes its function at least once. -/
theorem runQuery_fetchCount_pos {α : Type} (queryFn : Nat → Option α) (retry attempt : Nat) :
    attempt + 1 ≤ (runQuery queryFn attempt retry).fetchCount := by
  induction retry generalizing attempt with
  | zero =>
    unfold runQuery
    cases queryFn attempt <;> simp
  | succ r ih =>
    unfold runQuery
    cases queryFn attempt with
    | some d => simp
    | none =>
      have := ih (attempt + 1)
      simp only
      omega

/-- Claim C7. The transaction fetch and the notification fetch are enabled iff the
identity is present, a disabled fetch is never sent and an enabled one is; when
the identity fetch fails it is not retried (one invocation), the identity is
absent, both dependent fetches are skipped and their results default to the
empty sequence, so the point balance is 0 and the badge is hidden. -/
theorem dependent_queries_gated (defaultRetry : Nat) (svc : Services) :
    ((layoutQueries defaultRetry svc).transactionsEnabled = true ↔
      (layoutQueries defaultRetry svc).user.data.isSome = true) ∧
    ((layoutQueries defaultRetry svc).notificationsEnabled = true ↔
      (layoutQueries defaultRetry svc).user.data.isSome = true) ∧
    ((layoutQueries defaultRetry svc).transactionsQuery.fetchCount = 0 ↔
      (layoutQueries defaultRetry svc).transactionsEnabled = false) ∧
    ((layoutQueries defaultRetry svc).notificationsQuery.fetchCount = 0 ↔
      (layoutQueries defaultRetry svc).notificationsEnabled = false) ∧
    (svc.me 0 = none →
      (layoutQueries defaultRetry svc).user.fetchCount = 1 ∧
      (layoutQueries defaultRetry svc).user.data = none ∧
      (layoutQueries defaultRetry svc).transactionsEnabled = false ∧
      (layoutQueries defaultRetry svc).notificationsEnabled = false ∧
      (layoutQueries defaultRetry svc).transactionsQuery.fetchCount = 0 ∧
      (layoutQueries defaultRetry svc).notificationsQuery.fetchCount = 0 ∧
      (layoutQueries defaultRetry svc).transactions = [] ∧
      (layoutQueries defaultRetry svc).notifications = [] ∧
      totalPoints (layoutQueries defaultRetry svc).transactions = JSNumber.zero ∧
      notificationBadge (layoutQueries defaultRetry svc).notifications = none) := by
  have hcount : ∀ {α : Type} (en : Bool) (f : Nat → Option α),
      ((useQuery en defaultRetry f).fetchCount = 0 ↔ en = false) := by
    intro α en f
    cases en with
    | false => simp [useQuery]
    | true =>
      have := runQuery_fetchCount_pos f defaultRetry 0
      simp only [useQuery, if_true, Bool.true_eq_false, iff_false]
      omega
  refine ⟨Iff.rfl, Iff.rfl, hcount _ _, hcount _ _, ?_⟩
  intro hme
  have hu : runQuery svc.me 0 0 = { data := none, fetchCount := 1 } :=
    runQuery_no_retry_fail svc.me hme
  simp [layoutQueries, useQuery, hu, LayoutQueries.transactions, LayoutQueries.notifications,
    totalPoints_nil, notificationBadge]

/-- Witness of claim C7: an identity service that always fails. -/
theorem dependent_queries_gated_witness :
    (layoutQueries 3
      { me := fun _ => none
        transactionFilter := fun _ _ =>
          some [{ user_id := "u", type := some "earned", points := .number (JSNumber.ofInt 5) }]
        notificationFilter := fun _ _ => some [] }).transactionsQuery.fetchCount = 0 ∧
    totalPoints (layoutQueries 3
      { me := fun _ => none
        transactionFilter := fun _ _ =>
          some [{ user_id := "u", type := some "earned", points := .number (JSNumber.ofInt 5) }]
        notificationFilter := fun _ _ => some [] }).transactions = JSNumber.zero :=
  ⟨((dependent_queries_gated 3 _).2.2.2.2 rfl).2.2.2.2.1,
    ((dependent_queries_gated 3 _).2.2.2.2 rfl).2.2.2.2.2.2.2.2.1⟩

/-! ## The loaded list covers the unread notifications -/

/-- A read-flag update adds no unread notification. -/
theorem respond_unread_subset (net : Network) (b : Backend) (id : String)
    (user : Option User) :
    ∀ n ∈ notificationsQueryFn
        (Backend.respond net b { id := id, payload := { is_read := some true } }).2 user,
      n ∈ notificationsQueryFn b user := by
  intro x hx
  unfold notificationsQueryFn Backend.filterNotifications at hx ⊢
  rw [respond_notifications] at hx
  cases hd : net.delivers { id := id, payload := { is_read := some true } } with
  | true =>
    rw [hd] at hx
    simp only [if_true] at hx
    obtain ⟨hmem, hpred⟩ := List.mem_filter.mp hx
    obtain ⟨m, hm, rfl⟩ := List.mem_map.mp hmem
    by_cases h : m.id = id
    · simp [h, Notification.patch] at hpred
    · have hne : (m.id == id) = false := by simpa using h
      simp only [hne, Bool.false_eq_true, if_false] at hpred ⊢
      exact List.mem_filter.mpr ⟨hm, hpred⟩
  | false =>
    rw [hd] at hx
    simpa using hx

/-- Writes that are logouts or read-flag updates add no unread notification. -/
theorem applyWrites_unread_subset (net : Network) (ws : List BackendWrite) (b : Backend)
    (user : Option User)
    (h : ∀ wr ∈ ws, wr = .logout ∨
      ∃ id, wr = .notificationUpdate { id := id, payload := { is_read := some true } }) :
    ∀ n ∈ notificationsQueryFn (ws.foldl (applyWrite net) b) user,
      n ∈ notificationsQueryFn b user := by
  induction ws generalizing b with
  | nil => intro n hn; exact hn
  | cons wr ws ih =>
    intro n hn
    rw [List.foldl_cons] at hn
    have h1 := ih (applyWrite net b wr) (fun x hx => h x (List.mem_cons_of_mem _ hx)) n hn
    rcases h wr (List.mem_cons_self _ _) with rfl | ⟨id, rfl⟩
    · exact h1
    · exact respond_unread_subset net b id user n h1

/-- A click adds no unread notification. -/
theorem step_unread_subset (net : Network) (w : World) (t : ClickTarget)
    (user : Option User) :
    ∀ n ∈ notificationsQueryFn (step net w t).backend user,
      n ∈ notificationsQueryFn w.backend user := by
  rw [step_backend]
  exact applyWrites_unread_subset net _ _ user (writesOfClick_shape _ _)

/-- The end of a mutation leaves the identity alone. -/
theorem afterMutation_user (r : MutationRun Backend) (l : LayoutState) :
    (afterMutation r l).user = l.user := by
  unfold afterMutation
  cases r.invalidatedAt with
  | none => rfl
  | some t =>
    simp only [refetchNotifications]
    split <;> rfl

/-- A click leaves the identity alone. -/
theorem step_user (net : Network) (w : World) (t : ClickTarget) :
    (step net w t).layout.user = w.layout.user := by
  cases t <;> simp [step, afterMutation_user]

/-- The loaded list after the end of a mutation: kept, or refetched from the backend. -/
theorem afterMutation_notifications (r : MutationRun Backend) (l : LayoutState) :
    (afterMutation r l).notifications = l.notifications ∨
    ∃ u, l.user = some u ∧
      (afterMutation r l).notifications = some (notificationsQueryFn r.backend (some u)) := by
  unfold afterMutation
  cases r.invalidatedAt with
  | none => exact Or.inl rfl
  | some t =>
    simp only [refetchNotifications]
    cases hu : l.user with
    | none => exact Or.inl rfl
    | some u => exact Or.inr ⟨u, rfl, rfl⟩

/-- The loaded list after a click: kept, or refetched from the backend. -/
theorem step_notifications (net : Network) (w : World) (t : ClickTarget) :
    (step net w t).layout.notifications = w.layout.notifications ∨
    ∃ u, w.layout.user = some u ∧
      (step net w t).layout.notifications =
        some (notificationsQueryFn (step net w t).backend (some u)) := by
  cases t with
  | notificationItem notif => exact afterMutation_notifications _ _
  | markAllReadButton => exact afterMutation_notifications _ _
  | signOutItem => exact Or.inl rfl
  | menuButton => exact Or.inl rfl
  | backdrop => exact Or.inl rfl
  | mobileAside => exact Or.inl rfl
  | closeButton => exact Or.inl rfl
  | mobileNavLink item => exact Or.inl rfl
  | desktopNavLink item => exact Or.inl rfl
  | profileLink url => exact Or.inl rfl

/-- A click keeps the loaded list covering the backend. -/
theorem step_covers (net : Network) (w : World) (t : ClickTarget) (h : Covers w) :
    Covers (step net w t) := by
  intro u hu
  rw [step_user] at hu
  obtain ⟨N, hN, hcov⟩ := h u hu
  rcases step_notifications net w t with hkeep | ⟨v, hv, hre⟩
  · refine ⟨N, hkeep.trans hN, ?_⟩
    intro n hn
    exact hcov n (step_unread_subset net w t (some u) n hn)
  · rw [hu] at hv
    cases hv
    exact ⟨_, hre, fun n hn => List.mem_map_of_mem _ hn⟩

/-- A fetch whose current invocation succeeds holds its result. -/
theorem runQuery_ok {α : Type} (queryFn : Nat → Option α) (attempt retry : Nat) (x : α)
    (h : queryFn attempt = some x) :
    (runQuery queryFn attempt retry).data = some x := by
  cases retry <;> simp [runQuery, h]

/-- After mounting, the loaded list covers the backend. -/
theorem mount_covers (d : Nat) (b : Backend) : Covers (mount d b) := by
  intro u hu
  have hs : b.session = some u := by
    simp only [mount, layoutQueries, useQuery, if_true, Backend.services] at hu
    cases hb : b.session with
    | none => simp [runQuery, hb] at hu
    | some v => simpa [runQuery, hb] using hu
  have hme : runQuery b.services.me 0 0 = { data := some u, fetchCount := 1 } := by
    simp [runQuery, Backend.services, hs]
  refine ⟨notificationsQueryFn b (some u), ?_, fun n hn => List.mem_map_of_mem _ hn⟩
  simp only [mount, layoutQueries, useQuery, if_true, hme, Option.isSome_some]
  exact runQuery_ok _ 0 d (notificationsQueryFn b (some u)) rfl

/-- Every state reached by clicks keeps the loaded list covering the backend. -/
theorem run_covers (events : List (Network × ClickTarget)) (w : World) (h : Covers w) :
    Covers (run w events) := by
  induction events generalizing w with
  | nil => exact h
  | cons e es ih =>
    simp only [run, List.foldl_cons]
    exact ih _ (step_covers e.1 w e.2 h)

/-- In a state reached by clicks, mark-all-read with all updates succeeding
leaves no unread notification, in the backend and in the refetched list. -/
theorem markAll_after_run (d : Nat) (b : Backend)
    (events : List (Network × ClickTarget)) (net : Network) (u : User)
    (hu : (run (mount d b) events).layout.user = some u)
    (hok : ∀ p ∈ (markAllAsReadMutation (Backend.respond net)
        (run (mount d b) events).backend
        ((run (mount d b) events).layout.notifications.getD [])).responses,
      p.outcome = .fulfilled) :
    notificationsQueryFn
      (step net (run (mount d b) events) .markAllReadButton).backend (some u) = [] ∧
    (step net (run (mount d b) events) .markAllReadButton).layout.notifications =
      some [] := by
  generalize hw : run (mount d b) events = w at hu hok ⊢
  have hc : Covers w := by
    rw [← hw]
    exact run_covers events _ (mount_covers d b)
  obtain ⟨N, hN, hcov⟩ := hc u hu
  rw [hN, Option.getD_some] at hok
  have hnil := markAll_refetch_nil net w.backend (some u) N hcov hok
  have hinv : ((markAllAsReadMutation (Backend.respond net) w.backend N).invalidatedAt).isSome
      = true := by
    simp only [markAllAsReadMutation] at hok ⊢
    rw [onSuccessAt_isSome, promiseAll_fulfilled_iff]
    exact hok
  obtain ⟨t, ht⟩ := Option.isSome_iff_exists.mp hinv
  constructor
  · simp only [step, hN, Option.getD_some]
    exact hnil
  · simp only [step, hN, Option.getD_some, afterMutation, ht, refetchNotifications, hu, hnil]

/-- Claim C4. For a loaded unread list of length N, mark-all-read issues exactly
N update calls, one per loaded notification id and in that order, each with the
payload that sets `is_read` to true; and if all N updates succeed, the unread
query against the resulting backend state returns no item: for every loaded
list that covers the unread notifications of the backend, and so in every
state the mounted component reaches by clicks, where the refetched list is
empty. -/
theorem markAll_calls_and_refetch (notifications : List Notification) :
    (markAllAsReadCalls notifications).length = notifications.length ∧
    (markAllAsReadCalls notifications).map UpdateCall.id =
      notifications.map Notification.id ∧
    (∀ c ∈ markAllAsReadCalls notifications, c.payload = { is_read := some true }) ∧
    (∀ (β : Type) (update : β → UpdateCall → Settled × β) (b : β),
      (markAllAsReadMutation update b notifications).calls = markAllAsReadCalls notifications ∧
      (markAllAsReadMutation update b notifications).responses.length =
        notifications.length) ∧
    (markAllAsReadMutation recordingService [] notifications).backend =
      notifications.map (fun notif => { id := notif.id, payload := { is_read := some true } }) ∧
    (∀ (net : Network) (b : Backend) (user : Option User),
      (∀ n ∈ notificationsQueryFn b user, n.id ∈ notifications.map Notification.id) →
      (∀ p ∈ (markAllAsReadMutation (Backend.respond net) b notifications).responses,
        p.outcome = .fulfilled) →
      (markAllAsReadMutation (Backend.respond net) b notifications).invalidatedAt.isSome = true ∧
      notificationsQueryFn
        (markAllAsReadMutation (Backend.respond net) b notifications).backend user = []) ∧
    (∀ (d : Nat) (b : Backend) (events : List (Network × ClickTarget))
        (net : Network) (u : User),
      (run (mount d b) events).layout.user = some u →
      (∀ p ∈ (markAllAsReadMutation (Backend.respond net) (run (mount d b) events).backend
          ((run (mount d b) events).layout.notifications.getD [])).responses,
        p.outcome = .fulfilled) →
      notificationsQueryFn
        (step net (run (mount d b) events) .markAllReadButton).backend (some u) = [] ∧
      (step net (run (mount d b) events) .markAllReadButton).layout.notifications =
        some []) := by
  refine ⟨?_, markAllAsReadCalls_ids _, markAllAsReadCalls_payload _, ?_, ?_, ?_, ?_⟩
  · simp [markAllAsReadCalls]
  · intro β update b
    refine ⟨rfl, ?_⟩
    simp [markAllAsReadMutation, issueAll_length, markAllAsReadCalls]
  · simp only [markAllAsReadMutation, issueAll_backend, recordingService]
    have hgen : ∀ (l : List UpdateCall) (acc : List UpdateCall),
        l.foldl (fun st c => st ++ [c]) acc = acc ++ l := by
      intro l
      induction l with
      | nil => simp
      | cons a l ih => intro acc; simp [ih]
    rw [hgen]
    simp [markAllAsReadCalls]
  · intro net b user hcover hok
    refine ⟨?_, markAll_refetch_nil net b user notifications hcover hok⟩
    simp only [markAllAsReadMutation] at hok ⊢
    rw [onSuccessAt_isSome, promiseAll_fulfilled_iff]
    exact hok
  · intro d b events net u hu hok
    exact markAll_after_run d b events net u hu hok

/-- Witness of claim C4: two unread notifications loaded, both updates succeed,
the unread query is empty afterwards. -/
theorem markAll_calls_and_refetch_witness :
    notificationsQueryFn
      (markAllAsReadMutation
        (Backend.respond { latency := fun _ => 1, delivers := fun _ => true })
        { session := some { full_name := "U", email := "u" }, transactions := [],
          notifications :=
            [ { id := "n1", user_id := "u", title := "a", message := "m", is_read := false },
              { id := "n2", user_id := "u", title := "b", message := "m", is_read := false },
              { id := "n3", user_id := "u", title := "c", message := "m", is_read := true } ] }
        [ { id := "n1", user_id := "u", title := "a", message := "m", is_read := false },
          { id := "n2", user_id := "u", title := "b", message := "m", is_read := false } ]
        ).backend (some { full_name := "U", email := "u" }) = [] :=
  ((markAll_calls_and_refetch _).2.2.2.2.2.1 _ _ _ (by decide) (by decide)).2

end EcoTech
